import Mathlib

/-!
# ClawStake: a verified shallow embedding

Shallow embedding of `src/contracts/ClawStake.sol` (Solidity 0.8, EVM
transaction semantics).  Modelling choices:

* Every external function becomes a Lean function
  `... → ClawState → Except Err ClawState`.  An EVM revert discards all
  writes of the transaction, so a failing call is `.error e` carrying no
  state: the caller (the trace semantics `execOp`) keeps the pre-state.
* `uint256` is modelled as `Nat`.  Solidity 0.8 checked arithmetic
  reverts on overflow instead of wrapping; with 6-decimal USDC amounts
  the sums involved are astronomically far from `2^256`, so the
  embedding treats the arithmetic as exact.
* `keccak256(abi.encodePacked(slug))` is modelled as the identity on
  strings: the digest is collision-free for practical purposes and is
  used only as an opaque storage key, so any injective encoding is a
  faithful model.
* The external USDC token is modelled as a balance ledger inside the
  state.  `safeTransferFrom`/`safeTransfer` fail exactly when the payer
  balance is insufficient (the ERC20 revert); allowances are not
  modelled (an allowance failure is the same kind of propagated revert).
  `emergencyWithdraw` is modelled for `token = usdc`, the only case that
  touches the custody ledger.
* Solidity events are appended to an event log in the state, exactly at
  the source's `emit` sites; a reverted call appends nothing.
-/

namespace ClawStake

/-- Participant / account address. -/
abbrev Addr := Nat

/-- The contract's own address in the balance ledger. -/
def contractAddr : Addr := 0

/-- `MIN_STAKE = 1e6` (1 USDC at 6 decimals). -/
def MIN_STAKE : Nat := 1000000

/-- `REFUND_GRACE_PERIOD = 30 days` in seconds. -/
def REFUND_GRACE_PERIOD : Nat := 2592000

/-- `keccak256(abi.encodePacked(slug))`, modelled as an injective
encoding of the slug (the identity). -/
def keccak256 (s : String) : String := s

/-- The `Market` struct. -/
structure Market where
  totalYes : Nat := 0
  totalNo : Nat := 0
  deadline : Nat := 0
  resolved : Bool := false
  outcomeYes : Bool := false
  cancelled : Bool := false
  exists_ : Bool := false
  deriving Repr, DecidableEq

/-- The `Stake` struct (a participant's position in one market). -/
structure Stake where
  amountYes : Nat := 0
  amountNo : Nat := 0
  claimed : Bool := false
  deriving Repr, DecidableEq

/-- The contract's custom errors, plus the two revert reasons coming
from outside the contract body: `NotOwner` (the `onlyOwner` modifier)
and `TransferFailed` (a revert propagated from the token). -/
inductive Err where
  | MarketAlreadyResolved
  | MarketNotResolved
  | MarketDoesNotExist
  | MarketExpired
  | MarketIsCancelled
  | StakeTooSmall
  | NothingToClaim
  | NothingToRefund
  | AlreadyClaimed
  | RefundNotAvailable
  | EmptySlug
  | ArrayLengthMismatch
  | NotOwner
  | TransferFailed
  deriving Repr, DecidableEq

/-- The contract's events (the `bytes32` key argument is omitted: it is
the digest of the slug, recoverable from the slug itself). -/
inductive Event where
  | MarketCreated (slug : String)
  | Staked (slug : String) (staker : Addr) (isYes : Bool) (amount : Nat)
  | MarketResolved (slug : String) (outcomeYes : Bool)
  | MarketCancelled (slug : String)
  | Claimed (slug : String) (staker : Addr) (payout : Nat)
  | Refunded (slug : String) (staker : Addr) (amount : Nat)
  | DeadlineSet (slug : String) (deadline : Nat)
  | EmergencyWithdraw (dest : Addr) (amount : Nat)
  deriving Repr, DecidableEq

/-- Association-list map with a default value: read the first entry with
the given key, or the default.  Models a Solidity `mapping`, which
yields a zero-valued default for an absent key. -/
def amGet {α β : Type} [DecidableEq α] (d : β) : List (α × β) → α → β
  | [], _ => d
  | (k', v) :: t, k => if k' = k then v else amGet d t k

/-- Write a key: replace the first entry with that key, or append. -/
def amSet {α β : Type} [DecidableEq α] : List (α × β) → α → β → List (α × β)
  | [], k, v => [(k, v)]
  | (k', v') :: t, k, v => if k' = k then (k, v) :: t else (k', v') :: amSet t k v

/-- The whole contract state: owner, the four storage structures, the
token balance ledger, and the event log. -/
structure ClawState where
  owner : Addr
  markets : List (String × Market)
  stakes : List ((String × Addr) × Stake)
  marketKeys : List String
  slugOf : List (String × String)
  balances : List (Addr × Nat)
  events : List Event
  deriving Repr, DecidableEq

/-- `markets[key]` (zero-valued default for an absent key). -/
def getMarket (st : ClawState) (k : String) : Market :=
  amGet {} st.markets k

/-- `stakes[key][staker]`. -/
def getStakeRec (st : ClawState) (k : String) (a : Addr) : Stake :=
  amGet {} st.stakes (k, a)

/-- `usdc.balanceOf(a)`. -/
def bal (st : ClawState) (a : Addr) : Nat :=
  amGet 0 st.balances a

/-- The balance ledger after moving `amt` from `f` to `t` (caller must
have checked `amt ≤ bal f`).  Debit then credit, reading the credited
balance after the debit, exactly as an ERC20 `_update` does (so a
self-transfer is a no-op). -/
def transferBal (bals : List (Addr × Nat)) (f t : Addr) (amt : Nat) :
    List (Addr × Nat) :=
  let b1 := amSet bals f (amGet 0 bals f - amt)
  amSet b1 t (amGet 0 b1 t + amt)

/-- The market-creation block shared by `stake` and `_recordStake`:
if `markets[key].exists` is false, set it, push the key, store the
reverse-lookup slug and emit `MarketCreated`. -/
def createIfAbsent (slug : String) (st : ClawState) : ClawState :=
  let key := keccak256 slug
  if (getMarket st key).exists_ = false then
    { st with
      markets := amSet st.markets key { exists_ := true }
      marketKeys := st.marketKeys ++ [key]
      slugOf := amSet st.slugOf key slug
      events := st.events ++ [.MarketCreated slug] }
  else st

/-- The lifecycle checks shared by `stake` and `_recordStake`:
resolved, cancelled, expired — in source order. -/
def lifecycleCheck (now : Nat) (m : Market) : Option Err :=
  if m.resolved then some .MarketAlreadyResolved
  else if m.cancelled then some .MarketIsCancelled
  else if 0 < m.deadline ∧ m.deadline < now then some .MarketExpired
  else none

/-- The bookkeeping tail shared by `stake` and `_recordStake`: add
`amount` to the chosen side of the market total and of the caller's
stake record, and emit `Staked`. -/
def applyStake (sender : Addr) (slug : String) (isYes : Bool) (amount : Nat)
    (st : ClawState) : ClawState :=
  let key := keccak256 slug
  let m := getMarket st key
  let s := getStakeRec st key sender
  let m' := if isYes then { m with totalYes := m.totalYes + amount }
            else { m with totalNo := m.totalNo + amount }
  let s' := if isYes then { s with amountYes := s.amountYes + amount }
            else { s with amountNo := s.amountNo + amount }
  { st with
    markets := amSet st.markets key m'
    stakes := amSet st.stakes (key, sender) s'
    events := st.events ++ [.Staked slug sender isYes amount] }

/-- `stake(marketSlug, isYes, amount)`. -/
def stake (now : Nat) (sender : Addr) (slug : String) (isYes : Bool)
    (amount : Nat) (st : ClawState) : Except Err ClawState :=
  if slug = "" then .error .EmptySlug
  else if amount < MIN_STAKE then .error .StakeTooSmall
  else
    let st1 := createIfAbsent slug st
    match lifecycleCheck now (getMarket st1 (keccak256 slug)) with
    | some e => .error e
    | none =>
      if bal st1 sender < amount then .error .TransferFailed
      else
        .ok (applyStake sender slug isYes amount
          { st1 with balances := transferBal st1.balances sender contractAddr amount })

/-- `_recordStake(marketSlug, isYes, amount)`: one batch entry's
bookkeeping — no `MIN_STAKE` check and no token transfer. -/
def recordStake (now : Nat) (sender : Addr) (slug : String) (isYes : Bool)
    (amount : Nat) (st : ClawState) : Except Err ClawState :=
  if slug = "" then .error .EmptySlug
  else
    let st1 := createIfAbsent slug st
    match lifecycleCheck now (getMarket st1 (keccak256 slug)) with
    | some e => .error e
    | none => .ok (applyStake sender slug isYes amount st1)

/-- The `batchStake` recording loop over the zipped entry list. -/
def recordStakes (now : Nat) (sender : Addr) :
    List (String × Bool × Nat) → ClawState → Except Err ClawState
  | [], st => .ok st
  | (slug, isYes, amount) :: rest, st =>
    match recordStake now sender slug isYes amount st with
    | .error e => .error e
    | .ok st' => recordStakes now sender rest st'

/-- The `batchStake` validation loop: revert `StakeTooSmall` at the
first sub-minimum amount, else return the running total. -/
def sumChecked : List Nat → Except Err Nat
  | [] => .ok 0
  | a :: t =>
    if a < MIN_STAKE then .error .StakeTooSmall
    else
      match sumChecked t with
      | .error e => .error e
      | .ok s => .ok (a + s)

/-- `batchStake(slugs, sides, amounts)`: length check, per-amount
validation computing the total, one aggregate transfer, then the
per-entry recording loop. -/
def batchStake (now : Nat) (sender : Addr) (slugs : List String)
    (sides : List Bool) (amounts : List Nat) (st : ClawState) :
    Except Err ClawState :=
  if ¬(slugs.length = sides.length ∧ sides.length = amounts.length) then
    .error .ArrayLengthMismatch
  else
    match sumChecked amounts with
    | .error e => .error e
    | .ok totalAmount =>
      if bal st sender < totalAmount then .error .TransferFailed
      else
        recordStakes now sender (slugs.zip (sides.zip amounts))
          { st with balances := transferBal st.balances sender contractAddr totalAmount }

/-- `resolve(marketSlug, outcomeYes)` (owner only): record the outcome,
auto-cancelling when the winning pool (read before flipping state) is
zero. -/
def resolve (sender : Addr) (slug : String) (outcomeYes : Bool)
    (st : ClawState) : Except Err ClawState :=
  if ¬ sender = st.owner then .error .NotOwner
  else
    let key := keccak256 slug
    let m := getMarket st key
    if m.exists_ = false then .error .MarketDoesNotExist
    else if m.resolved then .error .MarketAlreadyResolved
    else if m.cancelled then .error .MarketIsCancelled
    else
      let winningPool := if outcomeYes then m.totalYes else m.totalNo
      let m1 := { m with resolved := true, outcomeYes := outcomeYes }
      let st1 := { st with
        markets := amSet st.markets key m1
        events := st.events ++ [.MarketResolved slug outcomeYes] }
      if winningPool = 0 then
        .ok { st1 with
          markets := amSet st1.markets key { m1 with cancelled := true }
          events := st1.events ++ [.MarketCancelled slug] }
      else .ok st1

/-- `claim(marketSlug)`: pay a winner their proportional share. -/
def claim (sender : Addr) (slug : String) (st : ClawState) :
    Except Err ClawState :=
  let key := keccak256 slug
  let m := getMarket st key
  if m.exists_ = false then .error .MarketDoesNotExist
  else if m.resolved = false then .error .MarketNotResolved
  else if m.cancelled then .error .MarketIsCancelled
  else
    let s := getStakeRec st key sender
    if s.claimed then .error .AlreadyClaimed
    else
      let userStake := if m.outcomeYes then s.amountYes else s.amountNo
      if userStake = 0 then .error .NothingToClaim
      else
        let winningPool := if m.outcomeYes then m.totalYes else m.totalNo
        let totalPool := m.totalYes + m.totalNo
        let payout := userStake * totalPool / winningPool
        if bal st contractAddr < payout then .error .TransferFailed
        else
          .ok { st with
            stakes := amSet st.stakes (key, sender) { s with claimed := true }
            balances := transferBal st.balances contractAddr sender payout
            events := st.events ++ [.Claimed slug sender payout] }

/-- `refund(marketSlug)`: refund a staker of a cancelled market, or of
an expired unresolved one (auto-cancelling it on the first such
refund). -/
def refund (now : Nat) (sender : Addr) (slug : String) (st : ClawState) :
    Except Err ClawState :=
  let key := keccak256 slug
  let m := getMarket st key
  if m.exists_ = false then .error .MarketDoesNotExist
  else
    let isExpiredUnresolved : Prop :=
      0 < m.deadline ∧ m.deadline + REFUND_GRACE_PERIOD < now ∧ m.resolved = false
    if ¬ m.cancelled ∧ ¬ isExpiredUnresolved then .error .RefundNotAvailable
    else
      let st1 :=
        if isExpiredUnresolved ∧ m.cancelled = false then
          { st with
            markets := amSet st.markets key { m with cancelled := true }
            events := st.events ++ [.MarketCancelled slug] }
        else st
      let s := getStakeRec st1 key sender
      let total := s.amountYes + s.amountNo
      if total = 0 ∨ s.claimed then .error .NothingToRefund
      else if bal st1 contractAddr < total then .error .TransferFailed
      else
        .ok { st1 with
          stakes := amSet st1.stakes (key, sender) { s with claimed := true }
          balances := transferBal st1.balances contractAddr sender total
          events := st1.events ++ [.Refunded slug sender total] }

/-- `setDeadline(marketSlug, deadline)` (owner only). -/
def setDeadline (sender : Addr) (slug : String) (deadline : Nat)
    (st : ClawState) : Except Err ClawState :=
  if ¬ sender = st.owner then .error .NotOwner
  else
    let key := keccak256 slug
    let m := getMarket st key
    if m.exists_ = false then .error .MarketDoesNotExist
    else if m.resolved then .error .MarketAlreadyResolved
    else if m.cancelled then .error .MarketIsCancelled
    else
      .ok { st with
        markets := amSet st.markets key { m with deadline := deadline }
        events := st.events ++ [.DeadlineSet slug deadline] }

/-- `cancelMarket(marketSlug)` (owner only). -/
def cancelMarket (sender : Addr) (slug : String) (st : ClawState) :
    Except Err ClawState :=
  if ¬ sender = st.owner then .error .NotOwner
  else
    let key := keccak256 slug
    let m := getMarket st key
    if m.exists_ = false then .error .MarketDoesNotExist
    else if m.resolved then .error .MarketAlreadyResolved
    else if m.cancelled then .error .MarketIsCancelled
    else
      .ok { st with
        markets := amSet st.markets key { m with cancelled := true }
        events := st.events ++ [.MarketCancelled slug] }

/-- `emergencyWithdraw(token, amount)` (owner only), modelled for
`token = usdc` — the only token whose ledger the embedding carries. -/
def emergencyWithdraw (sender : Addr) (amount : Nat) (st : ClawState) :
    Except Err ClawState :=
  if ¬ sender = st.owner then .error .NotOwner
  else if bal st contractAddr < amount then .error .TransferFailed
  else
    .ok { st with
      balances := transferBal st.balances contractAddr st.owner amount
      events := st.events ++ [.EmergencyWithdraw st.owner amount] }

/-- One external call to the contract. -/
inductive Op where
  | opStake (sender : Addr) (slug : String) (isYes : Bool) (amount : Nat)
  | opBatchStake (sender : Addr) (slugs : List String) (sides : List Bool)
      (amounts : List Nat)
  | opResolve (sender : Addr) (slug : String) (outcomeYes : Bool)
  | opClaim (sender : Addr) (slug : String)
  | opRefund (sender : Addr) (slug : String)
  | opSetDeadline (sender : Addr) (slug : String) (deadline : Nat)
  | opCancelMarket (sender : Addr) (slug : String)
  | opEmergencyWithdraw (sender : Addr) (amount : Nat)
  deriving Repr, DecidableEq

/-- Dispatch a call (`now` is `block.timestamp`). -/
def dispatch (now : Nat) (op : Op) (st : ClawState) : Except Err ClawState :=
  match op with
  | .opStake sender slug isYes amount => stake now sender slug isYes amount st
  | .opBatchStake sender slugs sides amounts =>
      batchStake now sender slugs sides amounts st
  | .opResolve sender slug outcomeYes => resolve sender slug outcomeYes st
  | .opClaim sender slug => claim sender slug st
  | .opRefund sender slug => refund now sender slug st
  | .opSetDeadline sender slug deadline => setDeadline sender slug deadline st
  | .opCancelMarket sender slug => cancelMarket sender slug st
  | .opEmergencyWithdraw sender amount => emergencyWithdraw sender amount st

/-- EVM transaction semantics: a reverted call leaves the state as it
was. -/
def execOp (now : Nat) (op : Op) (st : ClawState) : ClawState :=
  match dispatch now op st with
  | .ok st' => st'
  | .error _ => st

/-- Run a list of timestamped calls. -/
def run (st : ClawState) : List (Nat × Op) → ClawState
  | [] => st
  | (now, op) :: rest => run (execOp now op st) rest

/-- The state right after the constructor: empty storage, the deployer
is the owner, the token ledger starts with arbitrary balances. -/
def initState (owner : Addr) (bal0 : List (Addr × Nat)) : ClawState :=
  { owner := owner, markets := [], stakes := [], marketKeys := [],
    slugOf := [], balances := bal0, events := [] }

/-- A state the deployed contract can actually be in. -/
def Reachable (st : ClawState) : Prop :=
  ∃ owner bal0 tr, st = run (initState owner bal0) tr

/-- The lazy-void write of `refund`'s expiry path. -/
def cancelOnRefund (slug : String) (st : ClawState) : ClawState :=
  { st with
    markets := amSet st.markets slug
      { getMarket st slug with cancelled := true }
    events := st.events ++ [.MarketCancelled slug] }

/-- The payout tail of `refund`: mark claimed, pay out the full stake,
emit `Refunded`. -/
def refundApply (sender : Addr) (slug : String) (st : ClawState) : ClawState :=
  { st with
    stakes := amSet st.stakes (slug, sender)
      { getStakeRec st slug sender with claimed := true }
    balances := transferBal st.balances contractAddr sender
      ((getStakeRec st slug sender).amountYes +
        (getStakeRec st slug sender).amountNo)
    events := st.events ++ [.Refunded slug sender
      ((getStakeRec st slug sender).amountYes +
        (getStakeRec st slug sender).amountNo)] }

theorem getStakeRec_mk (o : Addr) (ms : List (String × Market))
    (sk : List ((String × Addr) × Stake)) (mk2 : List String)
    (so : List (String × String)) (b : List (Addr × Nat)) (es : List Event)
    (k : String) (a : Addr) :
    getStakeRec ⟨o, ms, sk, mk2, so, b, es⟩ k a = amGet {} sk (k, a) := rfl

theorem bal_mk (o : Addr) (ms : List (String × Market))
    (sk : List ((String × Addr) × Stake)) (mk2 : List String)
    (so : List (String × String)) (b : List (Addr × Nat)) (es : List Event)
    (a : Addr) : bal ⟨o, ms, sk, mk2, so, b, es⟩ a = amGet 0 b a := rfl


/-- `marketCount()`: the number of market keys recorded. -/
def marketCount (st : ClawState) : Nat := st.marketKeys.length

/-- `getMarketByIndex(index)`: the key and original slug at an index of
the enumeration list (`none` models the array-bounds revert). -/
def getMarketByIndex (st : ClawState) (i : Nat) : Option (String × String) :=
  match st.marketKeys[i]? with
  | none => none
  | some key => some (key, amGet "" st.slugOf key)


/-! ## Observables: payout accounting and stake sums -/

/-- The amount the given event pays out of custody for market `k`
(`Claimed` and `Refunded` are the only paying events). -/
def eventPayout (k : String) : Event → Nat
  | .Claimed slug _ p => if slug = k then p else 0
  | .Refunded slug _ a => if slug = k then a else 0
  | _ => 0

/-- Total paid out by claims and refunds for market `k` in an event
log. -/
def eventsPaid (k : String) (es : List Event) : Nat :=
  (es.map (eventPayout k)).sum

/-- Total paid out by claims and refunds for market `k` so far. -/
def paidOut (st : ClawState) (k : String) : Nat :=
  eventsPaid k st.events

/-- `1` if the event is a claim-or-refund payout to participant `a` in
market `k`. -/
def eventPayCount (k : String) (a : Addr) : Event → Nat
  | .Claimed slug who _ => if slug = k ∧ who = a then 1 else 0
  | .Refunded slug who _ => if slug = k ∧ who = a then 1 else 0
  | _ => 0

/-- Number of successful claim-or-refund payouts to `(k, a)` so far. -/
def payCount (st : ClawState) (k : String) (a : Addr) : Nat :=
  (st.events.map (eventPayCount k a)).sum

/-- Sum of `f` over all stake records of market `k`. -/
def stakeSum (f : Stake → Nat) (k : String) :
    List ((String × Addr) × Stake) → Nat
  | [] => 0
  | (ka, s) :: t => (if ka.1 = k then f s else 0) + stakeSum f k t

/-- The pool staked on the resolved outcome. -/
def winPool (m : Market) : Nat :=
  if m.outcomeYes then m.totalYes else m.totalNo

/-- A participant's stake on the resolved outcome. -/
def winAmt (m : Market) (s : Stake) : Nat :=
  if m.outcomeYes then s.amountYes else s.amountNo

/-- A participant's winning-side stake, counted only once paid. -/
def claimedWin (m : Market) (s : Stake) : Nat :=
  if s.claimed then winAmt m s else 0

/-- A participant's full stake, counted only once paid. -/
def claimedAll (s : Stake) : Nat :=
  if s.claimed then s.amountYes + s.amountNo else 0

/-! ## Association-map lemmas -/

@[simp]
theorem keccak256_eq (s : String) : keccak256 s = s := rfl

theorem amGet_amSet_self {α β : Type} [DecidableEq α] (d : β)
    (l : List (α × β)) (k : α) (v : β) : amGet d (amSet l k v) k = v := by
  induction l with
  | nil => simp [amGet, amSet]
  | cons p t ih =>
    obtain ⟨k', v'⟩ := p
    by_cases h : k' = k <;> simp [amGet, amSet, h, ih]

theorem amGet_amSet_ne {α β : Type} [DecidableEq α] (d : β)
    (l : List (α × β)) {k k' : α} (v : β) (h : k' ≠ k) :
    amGet d (amSet l k' v) k = amGet d l k := by
  induction l with
  | nil => simp [amGet, amSet, h]
  | cons p t ih =>
    obtain ⟨k'', v''⟩ := p
    by_cases h2 : k'' = k' <;> simp [amGet, amSet, h2, ih]
    · subst h2; simp [h, amGet]

theorem mem_amSet {α β : Type} [DecidableEq α]
    {l : List (α × β)} {k : α} {v : β} {p : α × β}
    (hp : p ∈ amSet l k v) : p ∈ l ∨ p = (k, v) := by
  induction l with
  | nil => simpa [amSet] using hp
  | cons q t ih =>
    obtain ⟨k', v'⟩ := q
    by_cases h : k' = k
    · simp only [amSet, h, if_pos rfl] at hp
      rcases List.mem_cons.mp hp with h1 | h1
      · exact Or.inr h1
      · exact Or.inl (List.mem_cons_of_mem _ h1)
    · simp only [amSet, if_neg h] at hp
      rcases List.mem_cons.mp hp with h1 | h1
      · exact Or.inl (List.mem_cons.mpr (Or.inl h1))
      · rcases ih h1 with h2 | h2
        · exact Or.inl (List.mem_cons_of_mem _ h2)
        · exact Or.inr h2

/-! ## Stake-sum lemmas -/

theorem stakeSum_amSet_same (f : Stake → Nat) (hf : f {} = 0)
    {k : String} {a : Addr} (v : Stake) (l : List ((String × Addr) × Stake)) :
    stakeSum f k (amSet l (k, a) v) + f (amGet {} l (k, a)) =
      stakeSum f k l + f v := by
  induction l with
  | nil => simp [stakeSum, amSet, amGet, hf]
  | cons p t ih =>
    obtain ⟨⟨k', a'⟩, s'⟩ := p
    by_cases h : (k', a') = (k, a)
    · obtain ⟨h1, h2⟩ := Prod.mk.injEq .. ▸ h
      subst h1; subst h2
      simp only [amSet, if_pos rfl, stakeSum, amGet]
      simp
      omega
    · simp only [amSet, if_neg h, stakeSum, amGet, if_neg h]
      omega

theorem stakeSum_amSet_other (f : Stake → Nat) {k k' : String} {a : Addr}
    (h : k' ≠ k) (v : Stake) (l : List ((String × Addr) × Stake)) :
    stakeSum f k (amSet l (k', a) v) = stakeSum f k l := by
  induction l with
  | nil => simp [stakeSum, amSet, h]
  | cons p t ih =>
    obtain ⟨⟨k'', a''⟩, s''⟩ := p
    by_cases h2 : (k'', a'') = (k', a)
    · obtain ⟨h3, h4⟩ := Prod.mk.injEq .. ▸ h2
      subst h3; subst h4
      simp [stakeSum, amSet, h]
    · simp [stakeSum, amSet, h2, ih]

theorem stakeSum_eq_zero (f : Stake → Nat) (k : String)
    {l : List ((String × Addr) × Stake)}
    (h : ∀ p ∈ l, p.1.1 = k → f p.2 = 0) : stakeSum f k l = 0 := by
  induction l with
  | nil => rfl
  | cons p t ih =>
    obtain ⟨⟨k', a'⟩, s'⟩ := p
    have ht : stakeSum f k t = 0 := ih fun q hq => h q (List.mem_cons_of_mem _ hq)
    by_cases hk : k' = k
    · simp [stakeSum, hk, ht, h (⟨(k, a'), s'⟩ : (String × Addr) × Stake)
        (hk ▸ List.mem_cons_self ..) rfl]
    · simp [stakeSum, hk, ht]

theorem stakeSum_le (f g : Stake → Nat) (k : String)
    (hfg : ∀ s, f s ≤ g s) (l : List ((String × Addr) × Stake)) :
    stakeSum f k l ≤ stakeSum g k l := by
  induction l with
  | nil => exact Nat.le_refl _
  | cons p t ih =>
    obtain ⟨⟨k', a'⟩, s'⟩ := p
    by_cases hk : k' = k
    · simpa [stakeSum, hk] using Nat.add_le_add (hfg s') ih
    · simpa [stakeSum, hk] using ih

theorem stakeSum_add (f g : Stake → Nat) (k : String)
    (l : List ((String × Addr) × Stake)) :
    stakeSum (fun s => f s + g s) k l = stakeSum f k l + stakeSum g k l := by
  induction l with
  | nil => rfl
  | cons p t ih =>
    obtain ⟨⟨k', a'⟩, s'⟩ := p
    by_cases hk : k' = k <;> simp [stakeSum, hk, ih] <;> omega

theorem stakeSum_congr (f g : Stake → Nat) (k : String)
    (hfg : ∀ s, f s = g s) (l : List ((String × Addr) × Stake)) :
    stakeSum f k l = stakeSum g k l := by
  have : f = g := funext hfg
  rw [this]

/-- The first entry for a key contributes at most the whole market
sum. -/
theorem amGet_le_stakeSum (f : Stake → Nat) (hf : f {} = 0)
    {k : String} (a : Addr) (l : List ((String × Addr) × Stake)) :
    f (amGet {} l (k, a)) ≤ stakeSum f k l := by
  induction l with
  | nil => simp [amGet, stakeSum, hf]
  | cons p t ih =>
    obtain ⟨⟨k', a'⟩, s'⟩ := p
    by_cases h : (k', a') = (k, a)
    · obtain ⟨h1, h2⟩ := Prod.mk.injEq .. ▸ h
      subst h1; subst h2
      simp [amGet, stakeSum]
    · simp only [amGet, if_neg h, stakeSum]
      omega

/-! ## Event-log lemmas -/

theorem eventsPaid_append (k : String) (es es' : List Event) :
    eventsPaid k (es ++ es') = eventsPaid k es + eventsPaid k es' := by
  simp [eventsPaid]

/-! ## Balance lemmas -/

theorem amGet_transferBal_from {bals : List (Addr × Nat)} {f t : Addr}
    (h : f ≠ t) (amt : Nat) :
    amGet 0 (transferBal bals f t amt) f = amGet 0 bals f - amt := by
  simp [transferBal, amGet_amSet_ne 0 _ _ (Ne.symm h), amGet_amSet_self]

theorem amGet_transferBal_to {bals : List (Addr × Nat)} {f t : Addr}
    (h : f ≠ t) (amt : Nat) :
    amGet 0 (transferBal bals f t amt) t = amGet 0 bals t + amt := by
  simp [transferBal, amGet_amSet_ne 0 _ _ h, amGet_amSet_self]

theorem amGet_transferBal_other {bals : List (Addr × Nat)} {f t x : Addr}
    (hf : x ≠ f) (ht : x ≠ t) (amt : Nat) :
    amGet 0 (transferBal bals f t amt) x = amGet 0 bals x := by
  simp [transferBal, amGet_amSet_ne 0 _ _ (Ne.symm hf),
    amGet_amSet_ne 0 _ _ (Ne.symm ht)]

/-! ## Market-creation lemmas -/

theorem createIfAbsent_of_exists {st : ClawState} {slug : String}
    (h : (getMarket st slug).exists_ = true) : createIfAbsent slug st = st := by
  simp [createIfAbsent, h]

theorem createIfAbsent_of_absent {st : ClawState} {slug : String}
    (h : (getMarket st slug).exists_ = false) :
    createIfAbsent slug st =
      { st with
        markets := amSet st.markets slug { exists_ := true }
        marketKeys := st.marketKeys ++ [slug]
        slugOf := amSet st.slugOf slug slug
        events := st.events ++ [.MarketCreated slug] } := by
  simp [createIfAbsent, h]

/-! ## Trace lemmas -/

theorem execOp_of_error {now : Nat} {op : Op} {st : ClawState} {e : Err}
    (h : dispatch now op st = .error e) : execOp now op st = st := by
  simp [execOp, h]

theorem execOp_of_ok {now : Nat} {op : Op} {st st' : ClawState}
    (h : dispatch now op st = .ok st') : execOp now op st = st' := by
  simp [execOp, h]

theorem run_append (st : ClawState) (l1 l2 : List (Nat × Op)) :
    run st (l1 ++ l2) = run (run st l1) l2 := by
  induction l1 generalizing st with
  | nil => rfl
  | cons x t ih => obtain ⟨now, op⟩ := x; simp [run, ih]

theorem Reachable.init (owner : Addr) (bal0 : List (Addr × Nat)) :
    Reachable (initState owner bal0) :=
  ⟨owner, bal0, [], rfl⟩

theorem Reachable.step {st : ClawState} (h : Reachable st)
    (now : Nat) (op : Op) : Reachable (execOp now op st) := by
  obtain ⟨owner, bal0, tr, rfl⟩ := h
  exact ⟨owner, bal0, tr ++ [(now, op)], by rw [run_append]; rfl⟩

theorem amGet_default_or_mem {α β : Type} [DecidableEq α] (d : β)
    (l : List (α × β)) (k : α) :
    amGet d l k = d ∨ (k, amGet d l k) ∈ l := by
  induction l with
  | nil => exact Or.inl rfl
  | cons p t ih =>
    obtain ⟨k', v'⟩ := p
    by_cases h : k' = k
    · subst h; exact Or.inr (by simp [amGet])
    · rcases ih with h1 | h1
      · exact Or.inl (by simpa [amGet, h] using h1)
      · right
        simp only [amGet, if_neg h]
        exact List.mem_cons_of_mem _ h1

/-- `lifecycleCheck` passes exactly when the market is unresolved,
uncancelled and not past a set deadline. -/
theorem lifecycleCheck_none_iff (now : Nat) (m : Market) :
    lifecycleCheck now m = none ↔
      m.resolved = false ∧ m.cancelled = false ∧
        ¬(0 < m.deadline ∧ m.deadline < now) := by
  unfold lifecycleCheck
  split_ifs with h1 h2 h3 <;> simp_all

theorem createIfAbsent_exists (slug : String) (st : ClawState) :
    (getMarket (createIfAbsent slug st) slug).exists_ = true := by
  by_cases h : (getMarket st slug).exists_ = true
  · rw [createIfAbsent_of_exists h]; exact h
  · rw [createIfAbsent_of_absent (Bool.not_eq_true _ ▸ h)]
    simp [getMarket, amGet_amSet_self]

/-! ## The reachable-state invariant

`Inv` is the inductive invariant of the contract, strong enough to
carry the solvency and no-double-payout properties through every
operation:

* `existsDefault` — a market never touched is the all-zero record;
* `sumYes`/`sumNo` — each side's pool total equals the sum of the
  participants' side stakes for that market;
* `openPaid`/`openFlags` — an open (unresolved, uncancelled) market has
  paid nothing and has no `claimed` flag set;
* `resolvedPool` — a resolved, uncancelled market has a nonzero winning
  pool (else `resolve` would have auto-cancelled it);
* `resolvedPaid` — for a resolved uncancelled market,
  `paid * winPool ≤ (sum of claimed winners' stakes) * totalPool`;
* `cancelledPaid` — for a cancelled market, the total paid is at most
  the sum of the full stakes of the participants whose flag is set;
* `payBound` — `(k, a)` has received at most one payout, and none
  unless its `claimed` flag is set. -/
structure Inv (st : ClawState) : Prop where
  existsDefault : ∀ k, (getMarket st k).exists_ = false → getMarket st k = {}
  sumYes : ∀ k, stakeSum Stake.amountYes k st.stakes = (getMarket st k).totalYes
  sumNo : ∀ k, stakeSum Stake.amountNo k st.stakes = (getMarket st k).totalNo
  openPaid : ∀ k, (getMarket st k).resolved = false →
    (getMarket st k).cancelled = false → paidOut st k = 0
  openFlags : ∀ k, (getMarket st k).resolved = false →
    (getMarket st k).cancelled = false →
    ∀ p ∈ st.stakes, p.1.1 = k → p.2.claimed = false
  resolvedPool : ∀ k, (getMarket st k).resolved = true →
    (getMarket st k).cancelled = false → 0 < winPool (getMarket st k)
  resolvedPaid : ∀ k, (getMarket st k).resolved = true →
    (getMarket st k).cancelled = false →
    paidOut st k * winPool (getMarket st k) ≤
      stakeSum (claimedWin (getMarket st k)) k st.stakes *
        ((getMarket st k).totalYes + (getMarket st k).totalNo)
  cancelledPaid : ∀ k, (getMarket st k).cancelled = true →
    paidOut st k ≤ stakeSum claimedAll k st.stakes
  payBound : ∀ k a, payCount st k a ≤
    (if (getStakeRec st k a).claimed then 1 else 0)

theorem Inv_init (owner : Addr) (bal0 : List (Addr × Nat)) :
    Inv (initState owner bal0) := by
  constructor <;>
    simp [initState, getMarket, getStakeRec, amGet, stakeSum, paidOut,
      eventsPaid, payCount, winPool]

/-- `Inv` does not mention the balance ledger: changing it alone
preserves the invariant. -/
theorem Inv_balances {st : ClawState} (inv : Inv st)
    (b : List (Addr × Nat)) : Inv { st with balances := b } :=
  ⟨inv.existsDefault, inv.sumYes, inv.sumNo, inv.openPaid, inv.openFlags,
    inv.resolvedPool, inv.resolvedPaid, inv.cancelledPaid, inv.payBound⟩

@[simp] theorem eventPayout_created (k s : String) :
    eventPayout k (.MarketCreated s) = 0 := rfl
@[simp] theorem eventPayout_staked (k s : String) (a : Addr) (y : Bool) (n : Nat) :
    eventPayout k (.Staked s a y n) = 0 := rfl
@[simp] theorem eventPayout_resolved (k s : String) (y : Bool) :
    eventPayout k (.MarketResolved s y) = 0 := rfl
@[simp] theorem eventPayout_cancelled (k s : String) :
    eventPayout k (.MarketCancelled s) = 0 := rfl
@[simp] theorem eventPayout_deadline (k s : String) (d : Nat) :
    eventPayout k (.DeadlineSet s d) = 0 := rfl
@[simp] theorem eventPayout_withdraw (k : String) (a : Addr) (n : Nat) :
    eventPayout k (.EmergencyWithdraw a n) = 0 := rfl
@[simp] theorem eventPayout_claimed (k s : String) (a : Addr) (p : Nat) :
    eventPayout k (.Claimed s a p) = if s = k then p else 0 := rfl
@[simp] theorem eventPayout_refunded (k s : String) (a : Addr) (p : Nat) :
    eventPayout k (.Refunded s a p) = if s = k then p else 0 := rfl

@[simp] theorem eventPayCount_created (k s : String) (a : Addr) :
    eventPayCount k a (.MarketCreated s) = 0 := rfl
@[simp] theorem eventPayCount_staked (k s : String) (a w : Addr) (y : Bool) (n : Nat) :
    eventPayCount k a (.Staked s w y n) = 0 := rfl
@[simp] theorem eventPayCount_resolved (k s : String) (a : Addr) (y : Bool) :
    eventPayCount k a (.MarketResolved s y) = 0 := rfl
@[simp] theorem eventPayCount_cancelled (k s : String) (a : Addr) :
    eventPayCount k a (.MarketCancelled s) = 0 := rfl
@[simp] theorem eventPayCount_deadline (k s : String) (a : Addr) (d : Nat) :
    eventPayCount k a (.DeadlineSet s d) = 0 := rfl
@[simp] theorem eventPayCount_withdraw (k : String) (a w : Addr) (n : Nat) :
    eventPayCount k a (.EmergencyWithdraw w n) = 0 := rfl
@[simp] theorem eventPayCount_claimed (k s : String) (a w : Addr) (p : Nat) :
    eventPayCount k a (.Claimed s w p) = if s = k ∧ w = a then 1 else 0 := rfl
@[simp] theorem eventPayCount_refunded (k s : String) (a w : Addr) (p : Nat) :
    eventPayCount k a (.Refunded s w p) = if s = k ∧ w = a then 1 else 0 := rfl

theorem Inv_createIfAbsent {st : ClawState} (inv : Inv st) (slug : String) :
    Inv (createIfAbsent slug st) := by
  by_cases h : (getMarket st slug).exists_ = true
  · rw [createIfAbsent_of_exists h]; exact inv
  · have h0 : (getMarket st slug).exists_ = false := by simpa using h
    have hdef := inv.existsDefault slug h0
    rw [createIfAbsent_of_absent h0]
    have gself : getMarket { st with
        markets := amSet st.markets slug { exists_ := true }
        marketKeys := st.marketKeys ++ [slug]
        slugOf := amSet st.slugOf slug slug
        events := st.events ++ [.MarketCreated slug] } slug =
        ({ exists_ := true } : Market) := by
      simp [getMarket, amGet_amSet_self]
    have gother : ∀ k, slug ≠ k → getMarket { st with
        markets := amSet st.markets slug { exists_ := true }
        marketKeys := st.marketKeys ++ [slug]
        slugOf := amSet st.slugOf slug slug
        events := st.events ++ [.MarketCreated slug] } k = getMarket st k := by
      intro k hk
      simp [getMarket, amGet_amSet_ne _ _ _ hk]
    have hpaid : ∀ k, paidOut { st with
        markets := amSet st.markets slug { exists_ := true }
        marketKeys := st.marketKeys ++ [slug]
        slugOf := amSet st.slugOf slug slug
        events := st.events ++ [.MarketCreated slug] } k = paidOut st k := by
      intro k
      simp [paidOut, eventsPaid]
    refine ⟨?_, ?_, ?_, ?_, ?_, ?_, ?_, ?_, ?_⟩
    · intro k hk
      by_cases hks : slug = k
      · subst hks; rw [gself] at hk; simp at hk
      · rw [gother k hks] at hk ⊢; exact inv.existsDefault k hk
    · intro k
      by_cases hks : slug = k
      · subst hks; rw [gself]
        have := inv.sumYes slug
        rw [hdef] at this
        simpa using this
      · rw [gother k hks]; exact inv.sumYes k
    · intro k
      by_cases hks : slug = k
      · subst hks; rw [gself]
        have := inv.sumNo slug
        rw [hdef] at this
        simpa using this
      · rw [gother k hks]; exact inv.sumNo k
    · intro k h1 h2
      rw [hpaid k]
      by_cases hks : slug = k
      · subst hks; exact inv.openPaid slug (by rw [hdef]) (by rw [hdef])
      · rw [gother k hks] at h1 h2; exact inv.openPaid k h1 h2
    · intro k h1 h2 p hp hpk
      by_cases hks : slug = k
      · subst hks
        exact inv.openFlags slug (by rw [hdef]) (by rw [hdef]) p hp hpk
      · rw [gother k hks] at h1 h2; exact inv.openFlags k h1 h2 p hp hpk
    · intro k h1 h2
      by_cases hks : slug = k
      · subst hks; rw [gself] at h1; simp at h1
      · rw [gother k hks] at h1 h2 ⊢; exact inv.resolvedPool k h1 h2
    · intro k h1 h2
      by_cases hks : slug = k
      · subst hks; rw [gself] at h1; simp at h1
      · rw [gother k hks] at h1 h2 ⊢
        rw [hpaid k]
        exact inv.resolvedPaid k h1 h2
    · intro k h1
      by_cases hks : slug = k
      · subst hks; rw [gself] at h1; simp at h1
      · rw [gother k hks] at h1
        rw [hpaid k]
        exact inv.cancelledPaid k h1
    · intro k a
      have : payCount { st with
          markets := amSet st.markets slug { exists_ := true }
          marketKeys := st.marketKeys ++ [slug]
          slugOf := amSet st.slugOf slug slug
          events := st.events ++ [.MarketCreated slug] } k a = payCount st k a := by
        simp [payCount]
      rw [this]
      exact inv.payBound k a

/-- Adding `dy`/`dn` simultaneously to a market's side totals and to one
participant's side stakes — together with an event that pays nothing —
preserves the invariant, provided the market is open. -/
theorem Inv_bump {st : ClawState} (inv : Inv st) (slug : String)
    (sender : Addr) (dy dn : Nat) (ev : Event)
    (hex : (getMarket st slug).exists_ = true)
    (hres : (getMarket st slug).resolved = false)
    (hcan : (getMarket st slug).cancelled = false)
    (hev0 : ∀ k, eventPayout k ev = 0)
    (hev1 : ∀ k a, eventPayCount k a ev = 0) :
    Inv { st with
      markets := amSet st.markets slug
        { getMarket st slug with
          totalYes := (getMarket st slug).totalYes + dy
          totalNo := (getMarket st slug).totalNo + dn }
      stakes := amSet st.stakes (slug, sender)
        { getStakeRec st slug sender with
          amountYes := (getStakeRec st slug sender).amountYes + dy
          amountNo := (getStakeRec st slug sender).amountNo + dn }
      events := st.events ++ [ev] } := by
  set M := getMarket st slug with hM
  set S := getStakeRec st slug sender with hS
  set st' : ClawState := { st with
      markets := amSet st.markets slug
        { M with totalYes := M.totalYes + dy, totalNo := M.totalNo + dn }
      stakes := amSet st.stakes (slug, sender)
        { S with amountYes := S.amountYes + dy, amountNo := S.amountNo + dn }
      events := st.events ++ [ev] } with hst'
  have gself : getMarket st' slug =
      { M with totalYes := M.totalYes + dy, totalNo := M.totalNo + dn } := by
    simp [hst', getMarket, amGet_amSet_self]
  have gother : ∀ k, slug ≠ k → getMarket st' k = getMarket st k := by
    intro k hk; simp [hst', getMarket, amGet_amSet_ne _ _ _ hk]
  have hpaid : ∀ k, paidOut st' k = paidOut st k := by
    intro k; simp [hst', paidOut, eventsPaid, hev0]
  have hcount : ∀ k a, payCount st' k a = payCount st k a := by
    intro k a; simp [hst', payCount, hev1]
  have sself : getStakeRec st' slug sender =
      { S with amountYes := S.amountYes + dy, amountNo := S.amountNo + dn } := by
    simp [hst', getStakeRec, amGet_amSet_self]
  have sother : ∀ k a, (slug, sender) ≠ (k, a) →
      getStakeRec st' k a = getStakeRec st k a := by
    intro k a hka; simp [hst', getStakeRec, amGet_amSet_ne _ _ _ hka]
  have hSclaimed : S.claimed = false := by
    rcases amGet_default_or_mem ({} : Stake) st.stakes (slug, sender) with hd | hm
    · rw [hS, getStakeRec, hd]
    · exact inv.openFlags slug hres hcan _ hm rfl
  refine ⟨?_, ?_, ?_, ?_, ?_, ?_, ?_, ?_, ?_⟩
  · intro k hk
    by_cases hks : slug = k
    · subst hks; rw [gself] at hk; simp at hk; rw [hk] at hex; simp at hex
    · rw [gother k hks] at hk ⊢; exact inv.existsDefault k hk
  · intro k
    by_cases hks : slug = k
    · subst hks
      rw [gself]
      have heq := stakeSum_amSet_same Stake.amountYes rfl
        (l := st.stakes) (k := slug) (a := sender)
        { S with amountYes := S.amountYes + dy, amountNo := S.amountNo + dn }
      have hbase := inv.sumYes slug
      show stakeSum Stake.amountYes slug
        (amSet st.stakes (slug, sender)
          { S with amountYes := S.amountYes + dy, amountNo := S.amountNo + dn }) =
        M.totalYes + dy
      rw [← hM] at hbase
      have hSa : amGet ({} : Stake) st.stakes (slug, sender) = S := rfl
      rw [hSa] at heq
      simp at heq
      omega
    · have : st'.stakes = amSet st.stakes (slug, sender)
          { S with amountYes := S.amountYes + dy, amountNo := S.amountNo + dn } := rfl
      rw [gother k hks]
      show stakeSum Stake.amountYes k st'.stakes = (getMarket st k).totalYes
      rw [this, stakeSum_amSet_other _ hks]
      exact inv.sumYes k
  · intro k
    by_cases hks : slug = k
    · subst hks
      rw [gself]
      have heq := stakeSum_amSet_same Stake.amountNo rfl
        (l := st.stakes) (k := slug) (a := sender)
        { S with amountYes := S.amountYes + dy, amountNo := S.amountNo + dn }
      have hbase := inv.sumNo slug
      show stakeSum Stake.amountNo slug
        (amSet st.stakes (slug, sender)
          { S with amountYes := S.amountYes + dy, amountNo := S.amountNo + dn }) =
        M.totalNo + dn
      rw [← hM] at hbase
      have hSa : amGet ({} : Stake) st.stakes (slug, sender) = S := rfl
      rw [hSa] at heq
      simp at heq
      omega
    · rw [gother k hks]
      show stakeSum Stake.amountNo k st'.stakes = (getMarket st k).totalNo
      rw [show st'.stakes = amSet st.stakes (slug, sender)
          { S with amountYes := S.amountYes + dy, amountNo := S.amountNo + dn } from rfl,
        stakeSum_amSet_other _ hks]
      exact inv.sumNo k
  · intro k h1 h2
    rw [hpaid k]
    by_cases hks : slug = k
    · subst hks; exact inv.openPaid slug hres hcan
    · rw [gother k hks] at h1 h2; exact inv.openPaid k h1 h2
  · intro k h1 h2 p hp hpk
    rcases mem_amSet hp with hin | hnew
    · by_cases hks : slug = k
      · subst hks; exact inv.openFlags slug hres hcan p hin hpk
      · rw [gother k hks] at h1 h2; exact inv.openFlags k h1 h2 p hin hpk
    · rw [hnew]; exact hSclaimed
  · intro k h1 h2
    by_cases hks : slug = k
    · subst hks; rw [gself] at h1; simp only [Market.resolved] at h1
      rw [h1] at hres; simp at hres
    · rw [gother k hks] at h1 h2 ⊢; exact inv.resolvedPool k h1 h2
  · intro k h1 h2
    by_cases hks : slug = k
    · subst hks; rw [gself] at h1; simp only [Market.resolved] at h1
      rw [h1] at hres; simp at hres
    · rw [gother k hks] at h1 h2 ⊢
      rw [hpaid k]
      show paidOut st k * winPool (getMarket st k) ≤
        stakeSum (claimedWin (getMarket st k)) k st'.stakes *
          ((getMarket st k).totalYes + (getMarket st k).totalNo)
      rw [show st'.stakes = amSet st.stakes (slug, sender)
          { S with amountYes := S.amountYes + dy, amountNo := S.amountNo + dn } from rfl,
        stakeSum_amSet_other _ hks]
      exact inv.resolvedPaid k h1 h2
  · intro k h1
    by_cases hks : slug = k
    · subst hks; rw [gself] at h1; simp only [Market.cancelled] at h1
      rw [h1] at hcan; simp at hcan
    · rw [gother k hks] at h1
      rw [hpaid k]
      show paidOut st k ≤ stakeSum claimedAll k st'.stakes
      rw [show st'.stakes = amSet st.stakes (slug, sender)
          { S with amountYes := S.amountYes + dy, amountNo := S.amountNo + dn } from rfl,
        stakeSum_amSet_other _ hks]
      exact inv.cancelledPaid k h1
  · intro k a
    rw [hcount k a]
    by_cases hka : (slug, sender) = (k, a)
    · obtain ⟨h1, h2⟩ := Prod.mk.injEq .. ▸ hka
      subst h1; subst h2
      rw [sself]
      simp only [Stake.claimed]
      exact inv.payBound slug sender
    · rw [sother k a hka]
      exact inv.payBound k a

/-- `applyStake` written as a symmetric bump of both sides. -/
theorem applyStake_eq (sender : Addr) (slug : String) (isYes : Bool)
    (amount : Nat) (st : ClawState) :
    applyStake sender slug isYes amount st =
      { st with
        markets := amSet st.markets slug
          { getMarket st slug with
            totalYes := (getMarket st slug).totalYes +
              (if isYes then amount else 0)
            totalNo := (getMarket st slug).totalNo +
              (if isYes then 0 else amount) }
        stakes := amSet st.stakes (slug, sender)
          { getStakeRec st slug sender with
            amountYes := (getStakeRec st slug sender).amountYes +
              (if isYes then amount else 0)
            amountNo := (getStakeRec st slug sender).amountNo +
              (if isYes then 0 else amount) }
        events := st.events ++ [.Staked slug sender isYes amount] } := by
  cases isYes <;> simp [applyStake]

/-- `applyStake` preserves the invariant on an existing open market. -/
theorem Inv_applyStake {st : ClawState} (inv : Inv st) (sender : Addr)
    (slug : String) (isYes : Bool) (amount : Nat)
    (hex : (getMarket st slug).exists_ = true)
    (hres : (getMarket st slug).resolved = false)
    (hcan : (getMarket st slug).cancelled = false) :
    Inv (applyStake sender slug isYes amount st) := by
  rw [applyStake_eq]
  exact Inv_bump inv slug sender _ _ _ hex hres hcan
    (fun k => rfl) (fun k a => rfl)

theorem amSet_amSet {α β : Type} [DecidableEq α] (l : List (α × β))
    (k : α) (v w : β) : amSet (amSet l k v) k w = amSet l k w := by
  induction l with
  | nil => simp [amSet]
  | cons p t ih =>
    obtain ⟨k', v'⟩ := p
    by_cases h : k' = k <;> simp [amSet, h, ih]

theorem createIfAbsent_balances (slug : String) (st : ClawState) :
    (createIfAbsent slug st).balances = st.balances := by
  simp only [createIfAbsent]; split_ifs <;> rfl

theorem createIfAbsent_stakes (slug : String) (st : ClawState) :
    (createIfAbsent slug st).stakes = st.stakes := by
  simp only [createIfAbsent]; split_ifs <;> rfl

theorem createIfAbsent_owner (slug : String) (st : ClawState) :
    (createIfAbsent slug st).owner = st.owner := by
  simp only [createIfAbsent]; split_ifs <;> rfl

/-! ## Success inversions for each operation -/

theorem stake_ok_elim {now : Nat} {sender : Addr} {slug : String}
    {isYes : Bool} {amount : Nat} {st st' : ClawState}
    (h : stake now sender slug isYes amount st = .ok st') :
    ¬ slug = "" ∧ MIN_STAKE ≤ amount ∧
    (getMarket (createIfAbsent slug st) slug).resolved = false ∧
    (getMarket (createIfAbsent slug st) slug).cancelled = false ∧
    ¬(0 < (getMarket (createIfAbsent slug st) slug).deadline ∧
      (getMarket (createIfAbsent slug st) slug).deadline < now) ∧
    amount ≤ bal st sender ∧
    st' = applyStake sender slug isYes amount
      { createIfAbsent slug st with
        balances := transferBal st.balances sender contractAddr amount } := by
  unfold stake at h
  by_cases h1 : slug = ""
  · rw [if_pos h1] at h; exact absurd h (by simp)
  rw [if_neg h1] at h
  by_cases h2 : amount < MIN_STAKE
  · rw [if_pos h2] at h; exact absurd h (by simp)
  rw [if_neg h2] at h
  simp only [keccak256_eq] at h
  rcases hlc : lifecycleCheck now (getMarket (createIfAbsent slug st) slug)
    with _ | e
  · rw [hlc] at h
    obtain ⟨hres, hcan, hdl⟩ := (lifecycleCheck_none_iff _ _).mp hlc
    simp only [] at h
    by_cases h3 : bal (createIfAbsent slug st) sender < amount
    · rw [if_pos h3] at h; exact absurd h (by simp)
    rw [if_neg h3] at h
    rw [bal, createIfAbsent_balances] at h3
    refine ⟨h1, by omega, hres, hcan, hdl, by rw [bal]; omega, ?_⟩
    have h4 : applyStake sender slug isYes amount
        { createIfAbsent slug st with
          balances := transferBal (createIfAbsent slug st).balances sender
            contractAddr amount } = st' := by
      simpa using h
    rw [← h4, createIfAbsent_balances]
  · rw [hlc] at h
    exact absurd h (by simp)

theorem recordStake_ok_elim {now : Nat} {sender : Addr} {slug : String}
    {isYes : Bool} {amount : Nat} {st st' : ClawState}
    (h : recordStake now sender slug isYes amount st = .ok st') :
    ¬ slug = "" ∧
    (getMarket (createIfAbsent slug st) slug).resolved = false ∧
    (getMarket (createIfAbsent slug st) slug).cancelled = false ∧
    ¬(0 < (getMarket (createIfAbsent slug st) slug).deadline ∧
      (getMarket (createIfAbsent slug st) slug).deadline < now) ∧
    st' = applyStake sender slug isYes amount (createIfAbsent slug st) := by
  unfold recordStake at h
  by_cases h1 : slug = ""
  · rw [if_pos h1] at h; exact absurd h (by simp)
  rw [if_neg h1] at h
  simp only [keccak256_eq] at h
  rcases hlc : lifecycleCheck now (getMarket (createIfAbsent slug st) slug)
    with _ | e
  · rw [hlc] at h
    obtain ⟨hres, hcan, hdl⟩ := (lifecycleCheck_none_iff _ _).mp hlc
    simp only [] at h
    exact ⟨h1, hres, hcan, hdl, by simpa using h.symm⟩
  · rw [hlc] at h
    exact absurd h (by simp)

theorem resolve_ok_elim {sender : Addr} {slug : String} {oc : Bool}
    {st st' : ClawState} (h : resolve sender slug oc st = .ok st') :
    sender = st.owner ∧ (getMarket st slug).exists_ = true ∧
    (getMarket st slug).resolved = false ∧
    (getMarket st slug).cancelled = false ∧
    ((¬ (if oc then (getMarket st slug).totalYes else (getMarket st slug).totalNo) = 0 ∧
      st' = { st with
        markets := amSet st.markets slug
          { getMarket st slug with resolved := true, outcomeYes := oc }
        events := st.events ++ [.MarketResolved slug oc] }) ∨
     ((if oc then (getMarket st slug).totalYes else (getMarket st slug).totalNo) = 0 ∧
      st' = { st with
        markets := amSet st.markets slug
          { getMarket st slug with
            resolved := true, outcomeYes := oc, cancelled := true }
        events := (st.events ++ [.MarketResolved slug oc]) ++
          [.MarketCancelled slug] })) := by
  unfold resolve at h
  by_cases h0 : sender = st.owner
  swap
  · rw [if_pos h0] at h; exact absurd h (by simp)
  rw [if_neg (not_not_intro h0)] at h
  simp only [keccak256_eq] at h
  by_cases hex : (getMarket st slug).exists_ = false
  · rw [if_pos hex] at h; exact absurd h (by simp)
  rw [if_neg hex] at h
  by_cases hres : (getMarket st slug).resolved
  · rw [if_pos hres] at h; exact absurd h (by simp)
  rw [if_neg hres] at h
  by_cases hcan : (getMarket st slug).cancelled
  · rw [if_pos hcan] at h; exact absurd h (by simp)
  rw [if_neg hcan] at h
  refine ⟨h0, by simpa using hex, by simpa using hres, by simpa using hcan, ?_⟩
  by_cases hw : (if oc then (getMarket st slug).totalYes
      else (getMarket st slug).totalNo) = 0
  · right
    refine ⟨hw, ?_⟩
    rw [if_pos hw] at h
    have h4 := Except.ok.inj h
    rw [← h4]
    simp [amSet_amSet]
  · left
    refine ⟨hw, ?_⟩
    rw [if_neg hw] at h
    exact (Except.ok.inj h).symm

theorem claim_ok_elim {sender : Addr} {slug : String} {st st' : ClawState}
    (h : claim sender slug st = .ok st') :
    (getMarket st slug).exists_ = true ∧
    (getMarket st slug).resolved = true ∧
    (getMarket st slug).cancelled = false ∧
    (getStakeRec st slug sender).claimed = false ∧
    ¬ winAmt (getMarket st slug) (getStakeRec st slug sender) = 0 ∧
    winAmt (getMarket st slug) (getStakeRec st slug sender) *
        ((getMarket st slug).totalYes + (getMarket st slug).totalNo) /
        winPool (getMarket st slug) ≤ bal st contractAddr ∧
    st' = { st with
      stakes := amSet st.stakes (slug, sender)
        { getStakeRec st slug sender with claimed := true }
      balances := transferBal st.balances contractAddr sender
        (winAmt (getMarket st slug) (getStakeRec st slug sender) *
          ((getMarket st slug).totalYes + (getMarket st slug).totalNo) /
          winPool (getMarket st slug))
      events := st.events ++ [.Claimed slug sender
        (winAmt (getMarket st slug) (getStakeRec st slug sender) *
          ((getMarket st slug).totalYes + (getMarket st slug).totalNo) /
          winPool (getMarket st slug))] } := by
  unfold claim at h
  simp only [keccak256_eq, winAmt, winPool] at h ⊢
  by_cases hex : (getMarket st slug).exists_ = false
  · rw [if_pos hex] at h; exact absurd h (by simp)
  rw [if_neg hex] at h
  by_cases hres : (getMarket st slug).resolved = false
  · rw [if_pos hres] at h; exact absurd h (by simp)
  rw [if_neg hres] at h
  by_cases hcan : (getMarket st slug).cancelled
  · rw [if_pos hcan] at h; exact absurd h (by simp)
  rw [if_neg hcan] at h
  by_cases hcl : (getStakeRec st slug sender).claimed
  · rw [if_pos hcl] at h; exact absurd h (by simp)
  rw [if_neg hcl] at h
  by_cases hus : (if (getMarket st slug).outcomeYes then
      (getStakeRec st slug sender).amountYes
      else (getStakeRec st slug sender).amountNo) = 0
  · rw [if_pos hus] at h; exact absurd h (by simp)
  rw [if_neg hus] at h
  by_cases hbal : bal st contractAddr <
      (if (getMarket st slug).outcomeYes then
        (getStakeRec st slug sender).amountYes
        else (getStakeRec st slug sender).amountNo) *
        ((getMarket st slug).totalYes + (getMarket st slug).totalNo) /
        (if (getMarket st slug).outcomeYes then (getMarket st slug).totalYes
          else (getMarket st slug).totalNo)
  · rw [if_pos hbal] at h; exact absurd h (by simp)
  rw [if_neg hbal] at h
  refine ⟨by simpa using hex, by simpa using hres, by simpa using hcan,
    by simpa using hcl, hus, by omega, ?_⟩
  exact (Except.ok.inj h).symm

theorem refund_ok_elim {now : Nat} {sender : Addr} {slug : String}
    {st st' : ClawState} (h : refund now sender slug st = .ok st') :
    (getMarket st slug).exists_ = true ∧
    ¬ ((getStakeRec st slug sender).amountYes +
        (getStakeRec st slug sender).amountNo) = 0 ∧
    (getStakeRec st slug sender).claimed = false ∧
    ((getStakeRec st slug sender).amountYes +
        (getStakeRec st slug sender).amountNo) ≤ bal st contractAddr ∧
    (((getMarket st slug).cancelled = true ∧
      st' = refundApply sender slug st) ∨
     ((getMarket st slug).cancelled = false ∧
      0 < (getMarket st slug).deadline ∧
      (getMarket st slug).deadline + REFUND_GRACE_PERIOD < now ∧
      (getMarket st slug).resolved = false ∧
      st' = refundApply sender slug (cancelOnRefund slug st))) := by
  unfold refund at h
  simp only [keccak256_eq] at h
  by_cases hex : (getMarket st slug).exists_ = false
  · rw [if_pos hex] at h; exact absurd h (by simp)
  rw [if_neg hex] at h
  by_cases helig : ¬ (getMarket st slug).cancelled ∧
      ¬ (0 < (getMarket st slug).deadline ∧
        (getMarket st slug).deadline + REFUND_GRACE_PERIOD < now ∧
        (getMarket st slug).resolved = false)
  · rw [if_pos helig] at h; exact absurd h (by simp)
  rw [if_neg helig] at h
  by_cases hcanc : (getMarket st slug).cancelled
  · -- already cancelled: no lazy-void write
    rw [if_neg (by simp [hcanc] :
        ¬ ((0 < (getMarket st slug).deadline ∧
          (getMarket st slug).deadline + REFUND_GRACE_PERIOD < now ∧
          (getMarket st slug).resolved = false) ∧
          (getMarket st slug).cancelled = false))] at h
    by_cases hz : (getStakeRec st slug sender).amountYes +
        (getStakeRec st slug sender).amountNo = 0 ∨
        (getStakeRec st slug sender).claimed
    · rw [if_pos hz] at h; exact absurd h (by simp)
    rw [if_neg hz] at h
    by_cases hbal : bal st contractAddr <
        (getStakeRec st slug sender).amountYes +
        (getStakeRec st slug sender).amountNo
    · rw [if_pos hbal] at h; exact absurd h (by simp)
    rw [if_neg hbal] at h
    push_neg at hz
    refine ⟨by simpa using hex, hz.1, by simpa using hz.2, by omega,
      Or.inl ⟨hcanc, ?_⟩⟩
    have h4 := Except.ok.inj h
    rw [← h4]
    simp [refundApply]
  · -- expiry path: the lazy void fires
    have hexp : 0 < (getMarket st slug).deadline ∧
        (getMarket st slug).deadline + REFUND_GRACE_PERIOD < now ∧
        (getMarket st slug).resolved = false := by
      rcases not_and_or.mp helig with hc | hc
      · exact absurd (not_not.mp hc) hcanc
      · exact not_not.mp hc
    have hcanc' : (getMarket st slug).cancelled = false := by simpa using hcanc
    have hcond : (0 < (getMarket st slug).deadline ∧
        (getMarket st slug).deadline + REFUND_GRACE_PERIOD < now ∧
        (getMarket st slug).resolved = false) ∧
        (getMarket st slug).cancelled = false := ⟨hexp, hcanc'⟩
    rw [if_pos hcond] at h
    simp only [getStakeRec_mk, bal_mk] at h
    by_cases hz : (amGet ({} : Stake) st.stakes (slug, sender)).amountYes +
        (amGet ({} : Stake) st.stakes (slug, sender)).amountNo = 0 ∨
        ((amGet ({} : Stake) st.stakes (slug, sender)).claimed = true)
    · rw [if_pos hz] at h; exact absurd h (by simp)
    rw [if_neg hz] at h
    by_cases hbal : amGet 0 st.balances contractAddr <
        (amGet ({} : Stake) st.stakes (slug, sender)).amountYes +
        (amGet ({} : Stake) st.stakes (slug, sender)).amountNo
    · rw [if_pos hbal] at h; exact absurd h (by simp)
    rw [if_neg hbal] at h
    push_neg at hz
    refine ⟨by simpa using hex, hz.1, by simpa using hz.2, by
        simpa [bal, getStakeRec] using Nat.le_of_not_lt hbal,
      Or.inr ⟨hcanc', hexp.1, hexp.2.1, hexp.2.2, ?_⟩⟩
    have h4 := Except.ok.inj h
    rw [← h4]
    simp [refundApply, cancelOnRefund, getStakeRec, bal, getMarket]

theorem setDeadline_ok_elim {sender : Addr} {slug : String} {d : Nat}
    {st st' : ClawState} (h : setDeadline sender slug d st = .ok st') :
    sender = st.owner ∧ (getMarket st slug).exists_ = true ∧
    (getMarket st slug).resolved = false ∧
    (getMarket st slug).cancelled = false ∧
    st' = { st with
      markets := amSet st.markets slug { getMarket st slug with deadline := d }
      events := st.events ++ [.DeadlineSet slug d] } := by
  unfold setDeadline at h
  by_cases h0 : sender = st.owner
  swap
  · rw [if_pos h0] at h; exact absurd h (by simp)
  rw [if_neg (not_not_intro h0)] at h
  simp only [keccak256_eq] at h
  by_cases hex : (getMarket st slug).exists_ = false
  · rw [if_pos hex] at h; exact absurd h (by simp)
  rw [if_neg hex] at h
  by_cases hres : (getMarket st slug).resolved
  · rw [if_pos hres] at h; exact absurd h (by simp)
  rw [if_neg hres] at h
  by_cases hcan : (getMarket st slug).cancelled
  · rw [if_pos hcan] at h; exact absurd h (by simp)
  rw [if_neg hcan] at h
  exact ⟨h0, by simpa using hex, by simpa using hres, by simpa using hcan,
    (Except.ok.inj h).symm⟩

theorem cancelMarket_ok_elim {sender : Addr} {slug : String}
    {st st' : ClawState} (h : cancelMarket sender slug st = .ok st') :
    sender = st.owner ∧ (getMarket st slug).exists_ = true ∧
    (getMarket st slug).resolved = false ∧
    (getMarket st slug).cancelled = false ∧
    st' = { st with
      markets := amSet st.markets slug
        { getMarket st slug with cancelled := true }
      events := st.events ++ [.MarketCancelled slug] } := by
  unfold cancelMarket at h
  by_cases h0 : sender = st.owner
  swap
  · rw [if_pos h0] at h; exact absurd h (by simp)
  rw [if_neg (not_not_intro h0)] at h
  simp only [keccak256_eq] at h
  by_cases hex : (getMarket st slug).exists_ = false
  · rw [if_pos hex] at h; exact absurd h (by simp)
  rw [if_neg hex] at h
  by_cases hres : (getMarket st slug).resolved
  · rw [if_pos hres] at h; exact absurd h (by simp)
  rw [if_neg hres] at h
  by_cases hcan : (getMarket st slug).cancelled
  · rw [if_pos hcan] at h; exact absurd h (by simp)
  rw [if_neg hcan] at h
  exact ⟨h0, by simpa using hex, by simpa using hres, by simpa using hcan,
    (Except.ok.inj h).symm⟩

theorem emergencyWithdraw_ok_elim {sender : Addr} {amount : Nat}
    {st st' : ClawState} (h : emergencyWithdraw sender amount st = .ok st') :
    sender = st.owner ∧ amount ≤ bal st contractAddr ∧
    st' = { st with
      balances := transferBal st.balances contractAddr st.owner amount
      events := st.events ++ [.EmergencyWithdraw st.owner amount] } := by
  unfold emergencyWithdraw at h
  by_cases h0 : sender = st.owner
  swap
  · rw [if_pos h0] at h; exact absurd h (by simp)
  rw [if_neg (not_not_intro h0)] at h
  by_cases hbal : bal st contractAddr < amount
  · rw [if_pos hbal] at h; exact absurd h (by simp)
  rw [if_neg hbal] at h
  exact ⟨h0, by omega, (Except.ok.inj h).symm⟩

theorem batchStake_ok_elim {now : Nat} {sender : Addr} {slugs : List String}
    {sides : List Bool} {amounts : List Nat} {st st' : ClawState}
    (h : batchStake now sender slugs sides amounts st = .ok st') :
    slugs.length = sides.length ∧ sides.length = amounts.length ∧
    ∃ total, sumChecked amounts = .ok total ∧ total ≤ bal st sender ∧
      recordStakes now sender (slugs.zip (sides.zip amounts))
        { st with balances := transferBal st.balances sender contractAddr total } =
        .ok st' := by
  unfold batchStake at h
  by_cases hlen : slugs.length = sides.length ∧ sides.length = amounts.length
  swap
  · rw [if_pos hlen] at h; exact absurd h (by simp)
  rw [if_neg (not_not_intro hlen)] at h
  rcases hsc : sumChecked amounts with e | total
  · rw [hsc] at h; exact absurd h (by simp)
  rw [hsc] at h
  simp only [] at h
  by_cases hbal : bal st sender < total
  · rw [if_pos hbal] at h; exact absurd h (by simp)
  rw [if_neg hbal] at h
  exact ⟨hlen.1, hlen.2, total, rfl, by omega, h⟩

/-- Replacing an open market's record — keeping its totals and
existence — and appending events that pay nothing preserves the
invariant, provided the new record cannot be resolved-with-empty-pool.
Covers `resolve` (both branches), `cancelMarket`, `setDeadline` and the
lazy void of `refund`. -/
theorem Inv_setMarketOpen {st : ClawState} (inv : Inv st) (slug : String)
    (m' : Market) (evs : List Event)
    (hopenR : (getMarket st slug).resolved = false)
    (hopenC : (getMarket st slug).cancelled = false)
    (hTY : m'.totalYes = (getMarket st slug).totalYes)
    (hTN : m'.totalNo = (getMarket st slug).totalNo)
    (hEx : m'.exists_ = true)
    (hpool : m'.resolved = true → m'.cancelled = false → 0 < winPool m')
    (hev0 : ∀ k, eventsPaid k evs = 0)
    (hev1 : ∀ k a, (evs.map (eventPayCount k a)).sum = 0) :
    Inv { st with
      markets := amSet st.markets slug m'
      events := st.events ++ evs } := by
  set st' : ClawState := { st with
      markets := amSet st.markets slug m'
      events := st.events ++ evs } with hst'
  have gself : getMarket st' slug = m' := by
    simp [hst', getMarket, amGet_amSet_self]
  have gother : ∀ k, slug ≠ k → getMarket st' k = getMarket st k := by
    intro k hk; simp [hst', getMarket, amGet_amSet_ne _ _ _ hk]
  have hpaid : ∀ k, paidOut st' k = paidOut st k := by
    intro k
    show eventsPaid k (st.events ++ evs) = paidOut st k
    rw [eventsPaid_append, hev0 k]
    rfl
  have hcount : ∀ k a, payCount st' k a = payCount st k a := by
    intro k a
    show ((st.events ++ evs).map (eventPayCount k a)).sum = payCount st k a
    rw [List.map_append, List.sum_append, hev1 k a]
    rfl
  have hpaid0 : paidOut st slug = 0 := inv.openPaid slug hopenR hopenC
  refine ⟨?_, ?_, ?_, ?_, ?_, ?_, ?_, ?_, ?_⟩
  · intro k hk
    by_cases hks : slug = k
    · subst hks; rw [gself] at hk; rw [hEx] at hk; simp at hk
    · rw [gother k hks] at hk ⊢; exact inv.existsDefault k hk
  · intro k
    by_cases hks : slug = k
    · subst hks; rw [gself, hTY]
      exact inv.sumYes slug
    · rw [gother k hks]; exact inv.sumYes k
  · intro k
    by_cases hks : slug = k
    · subst hks; rw [gself, hTN]
      exact inv.sumNo slug
    · rw [gother k hks]; exact inv.sumNo k
  · intro k h1 h2
    rw [hpaid k]
    by_cases hks : slug = k
    · subst hks; exact hpaid0
    · rw [gother k hks] at h1 h2; exact inv.openPaid k h1 h2
  · intro k h1 h2 p hp hpk
    by_cases hks : slug = k
    · subst hks; exact inv.openFlags slug hopenR hopenC p hp hpk
    · rw [gother k hks] at h1 h2; exact inv.openFlags k h1 h2 p hp hpk
  · intro k h1 h2
    by_cases hks : slug = k
    · subst hks; rw [gself] at h1 h2 ⊢; exact hpool h1 h2
    · rw [gother k hks] at h1 h2 ⊢; exact inv.resolvedPool k h1 h2
  · intro k h1 h2
    rw [hpaid k]
    by_cases hks : slug = k
    · subst hks; rw [hpaid0]
      simp
    · rw [gother k hks] at h1 h2 ⊢
      exact inv.resolvedPaid k h1 h2
  · intro k h1
    rw [hpaid k]
    by_cases hks : slug = k
    · subst hks; rw [hpaid0]
      exact Nat.zero_le _
    · rw [gother k hks] at h1
      exact inv.cancelledPaid k h1
  · intro k a
    rw [hcount k a]
    exact inv.payBound k a

/-- The payout tail of `refund` preserves the invariant on a cancelled
market when the caller's flag is not yet set. -/
theorem Inv_refundApply {st : ClawState} (inv : Inv st) (sender : Addr)
    (slug : String)
    (hcan : (getMarket st slug).cancelled = true)
    (hcl : (getStakeRec st slug sender).claimed = false) :
    Inv (refundApply sender slug st) := by
  set S := getStakeRec st slug sender with hS
  set total := S.amountYes + S.amountNo with htotal
  set st' := refundApply sender slug st with hst'
  have gsame : ∀ k, getMarket st' k = getMarket st k := fun k => rfl
  have hpaid : ∀ k, paidOut st' k =
      paidOut st k + (if slug = k then total else 0) := by
    intro k
    show eventsPaid k (st.events ++ [Event.Refunded slug sender total]) = _
    rw [eventsPaid_append]
    simp [eventsPaid, paidOut]
  have hcount : ∀ k a, payCount st' k a =
      payCount st k a + (if slug = k ∧ sender = a then 1 else 0) := by
    intro k a
    show ((st.events ++ [Event.Refunded slug sender total]).map
      (eventPayCount k a)).sum = _
    rw [List.map_append, List.sum_append]
    simp [payCount]
  have hstakes : st'.stakes = amSet st.stakes (slug, sender)
      { S with claimed := true } := rfl
  refine ⟨?_, ?_, ?_, ?_, ?_, ?_, ?_, ?_, ?_⟩
  · intro k hk
    rw [gsame k] at hk ⊢
    exact inv.existsDefault k hk
  · intro k
    rw [gsame k]
    by_cases hks : slug = k
    · subst hks
      have heq := stakeSum_amSet_same Stake.amountYes rfl
        (l := st.stakes) (k := slug) (a := sender) { S with claimed := true }
      have hSa : amGet ({} : Stake) st.stakes (slug, sender) = S := rfl
      rw [hSa] at heq
      have hbase := inv.sumYes slug
      rw [hstakes]
      simp at heq
      omega
    · rw [hstakes, stakeSum_amSet_other _ hks]
      exact inv.sumYes k
  · intro k
    rw [gsame k]
    by_cases hks : slug = k
    · subst hks
      have heq := stakeSum_amSet_same Stake.amountNo rfl
        (l := st.stakes) (k := slug) (a := sender) { S with claimed := true }
      have hSa : amGet ({} : Stake) st.stakes (slug, sender) = S := rfl
      rw [hSa] at heq
      have hbase := inv.sumNo slug
      rw [hstakes]
      simp at heq
      omega
    · rw [hstakes, stakeSum_amSet_other _ hks]
      exact inv.sumNo k
  · intro k h1 h2
    rw [gsame k] at h1 h2
    by_cases hks : slug = k
    · subst hks; rw [hcan] at h2; simp at h2
    · rw [hpaid k, if_neg hks, Nat.add_zero]
      exact inv.openPaid k h1 h2
  · intro k h1 h2 p hp hpk
    rw [gsame k] at h1 h2
    by_cases hks : slug = k
    · subst hks; rw [hcan] at h2; simp at h2
    · rw [hstakes] at hp
      rcases mem_amSet hp with hin | hnew
      · exact inv.openFlags k h1 h2 p hin hpk
      · rw [hnew] at hpk; simp at hpk; exact absurd hpk hks
  · intro k h1 h2
    rw [gsame k] at h1 h2 ⊢
    exact inv.resolvedPool k h1 h2
  · intro k h1 h2
    rw [gsame k] at h1 h2 ⊢
    by_cases hks : slug = k
    · subst hks; rw [hcan] at h2; simp at h2
    · rw [hpaid k, if_neg hks, Nat.add_zero, hstakes,
        stakeSum_amSet_other _ hks]
      exact inv.resolvedPaid k h1 h2
  · intro k h1
    rw [gsame k] at h1
    by_cases hks : slug = k
    · subst hks
      rw [hpaid slug, if_pos rfl, hstakes]
      have heq := stakeSum_amSet_same claimedAll rfl
        (l := st.stakes) (k := slug) (a := sender) { S with claimed := true }
      have hSa : amGet ({} : Stake) st.stakes (slug, sender) = S := rfl
      rw [hSa] at heq
      have hca0 : claimedAll S = 0 := by
        simp [claimedAll, hcl]
      have hca1 : claimedAll { S with claimed := true } = total := by
        simp [claimedAll, htotal]
      rw [hca0, hca1] at heq
      have := inv.cancelledPaid slug h1
      omega
    · rw [hpaid k, if_neg hks, Nat.add_zero, hstakes,
        stakeSum_amSet_other _ hks]
      exact inv.cancelledPaid k h1
  · intro k a
    rw [hcount k a]
    by_cases hka : (slug, sender) = (k, a)
    · obtain ⟨hk1, hk2⟩ := Prod.mk.injEq .. ▸ hka
      subst hk1; subst hk2
      have hpre := inv.payBound slug sender
      rw [← hS, hcl] at hpre
      simp at hpre
      have hflag : (getStakeRec st' slug sender).claimed = true := by
        show (amGet {} (amSet st.stakes (slug, sender)
          { S with claimed := true }) (slug, sender)).claimed = true
        rw [amGet_amSet_self]
      rw [hflag]
      simp
      omega
    · have hflag : getStakeRec st' k a = getStakeRec st k a := by
        show amGet {} (amSet st.stakes (slug, sender)
          { S with claimed := true }) (k, a) = _
        rw [amGet_amSet_ne _ _ _ hka]
        rfl
      rw [hflag, if_neg (by
        intro hcon
        exact hka (by rw [hcon.1, hcon.2]) ), Nat.add_zero]
      exact inv.payBound k a

/-- The payout of `claim` preserves the invariant on a resolved,
uncancelled market when the caller's flag is not yet set. -/
theorem Inv_claimApply {st : ClawState} (inv : Inv st) (sender : Addr)
    (slug : String)
    (hres : (getMarket st slug).resolved = true)
    (hcan : (getMarket st slug).cancelled = false)
    (hcl : (getStakeRec st slug sender).claimed = false) :
    Inv { st with
      stakes := amSet st.stakes (slug, sender)
        { getStakeRec st slug sender with claimed := true }
      balances := transferBal st.balances contractAddr sender
        (winAmt (getMarket st slug) (getStakeRec st slug sender) *
          ((getMarket st slug).totalYes + (getMarket st slug).totalNo) /
          winPool (getMarket st slug))
      events := st.events ++ [.Claimed slug sender
        (winAmt (getMarket st slug) (getStakeRec st slug sender) *
          ((getMarket st slug).totalYes + (getMarket st slug).totalNo) /
          winPool (getMarket st slug))] } := by
  set M := getMarket st slug with hM
  set S := getStakeRec st slug sender with hS
  set payout := winAmt M S * (M.totalYes + M.totalNo) / winPool M with hpayout
  set st' : ClawState := { st with
      stakes := amSet st.stakes (slug, sender) { S with claimed := true }
      balances := transferBal st.balances contractAddr sender payout
      events := st.events ++ [.Claimed slug sender payout] } with hst'
  have gsame : ∀ k, getMarket st' k = getMarket st k := fun k => rfl
  have hpaid : ∀ k, paidOut st' k =
      paidOut st k + (if slug = k then payout else 0) := by
    intro k
    show eventsPaid k (st.events ++ [Event.Claimed slug sender payout]) = _
    rw [eventsPaid_append]
    simp [eventsPaid, paidOut]
  have hcount : ∀ k a, payCount st' k a =
      payCount st k a + (if slug = k ∧ sender = a then 1 else 0) := by
    intro k a
    show ((st.events ++ [Event.Claimed slug sender payout]).map
      (eventPayCount k a)).sum = _
    rw [List.map_append, List.sum_append]
    simp [payCount]
  have hstakes : st'.stakes = amSet st.stakes (slug, sender)
      { S with claimed := true } := rfl
  refine ⟨?_, ?_, ?_, ?_, ?_, ?_, ?_, ?_, ?_⟩
  · intro k hk
    rw [gsame k] at hk ⊢
    exact inv.existsDefault k hk
  · intro k
    rw [gsame k]
    by_cases hks : slug = k
    · subst hks
      have heq := stakeSum_amSet_same Stake.amountYes rfl
        (l := st.stakes) (k := slug) (a := sender) { S with claimed := true }
      have hSa : amGet ({} : Stake) st.stakes (slug, sender) = S := rfl
      rw [hSa] at heq
      have hbase := inv.sumYes slug
      rw [hstakes]
      simp at heq
      omega
    · rw [hstakes, stakeSum_amSet_other _ hks]
      exact inv.sumYes k
  · intro k
    rw [gsame k]
    by_cases hks : slug = k
    · subst hks
      have heq := stakeSum_amSet_same Stake.amountNo rfl
        (l := st.stakes) (k := slug) (a := sender) { S with claimed := true }
      have hSa : amGet ({} : Stake) st.stakes (slug, sender) = S := rfl
      rw [hSa] at heq
      have hbase := inv.sumNo slug
      rw [hstakes]
      simp at heq
      omega
    · rw [hstakes, stakeSum_amSet_other _ hks]
      exact inv.sumNo k
  · intro k h1 h2
    rw [gsame k] at h1 h2
    by_cases hks : slug = k
    · subst hks; rw [← hM, hres] at h1; simp at h1
    · rw [hpaid k, if_neg hks, Nat.add_zero]
      exact inv.openPaid k h1 h2
  · intro k h1 h2 p hp hpk
    rw [gsame k] at h1 h2
    by_cases hks : slug = k
    · subst hks; rw [← hM, hres] at h1; simp at h1
    · rw [hstakes] at hp
      rcases mem_amSet hp with hin | hnew
      · exact inv.openFlags k h1 h2 p hin hpk
      · rw [hnew] at hpk; simp at hpk; exact absurd hpk hks
  · intro k h1 h2
    rw [gsame k] at h1 h2 ⊢
    exact inv.resolvedPool k h1 h2
  · intro k h1 h2
    rw [gsame k] at h1 h2 ⊢
    by_cases hks : slug = k
    · subst hks
      rw [hpaid slug, if_pos rfl, hstakes]
      have heq := stakeSum_amSet_same (claimedWin M) (by simp [claimedWin])
        (l := st.stakes) (k := slug) (a := sender) { S with claimed := true }
      have hSa : amGet ({} : Stake) st.stakes (slug, sender) = S := rfl
      rw [hSa] at heq
      have hcw0 : claimedWin M S = 0 := by
        simp [claimedWin, hcl]
      have hcw1 : claimedWin M { S with claimed := true } = winAmt M S := by
        simp [claimedWin, winAmt]
      rw [hcw0, hcw1] at heq
      have hIH := inv.resolvedPaid slug h1 h2
      rw [← hM] at hIH
      have hdiv : payout * winPool M ≤ winAmt M S * (M.totalYes + M.totalNo) := by
        rw [hpayout]
        exact Nat.div_mul_le_self _ _
      have hsum' : stakeSum (claimedWin M) slug
          (amSet st.stakes (slug, sender) { S with claimed := true }) =
          stakeSum (claimedWin M) slug st.stakes + winAmt M S := by omega
      rw [← hM, hsum', Nat.add_mul, Nat.add_mul]
      exact Nat.add_le_add hIH hdiv
    · rw [hpaid k, if_neg hks, Nat.add_zero, hstakes,
        stakeSum_amSet_other _ hks]
      exact inv.resolvedPaid k h1 h2
  · intro k h1
    rw [gsame k] at h1
    by_cases hks : slug = k
    · subst hks; rw [← hM, hcan] at h1; simp at h1
    · rw [hpaid k, if_neg hks, Nat.add_zero, hstakes,
        stakeSum_amSet_other _ hks]
      exact inv.cancelledPaid k h1
  · intro k a
    rw [hcount k a]
    by_cases hka : (slug, sender) = (k, a)
    · obtain ⟨hk1, hk2⟩ := Prod.mk.injEq .. ▸ hka
      subst hk1; subst hk2
      have hpre := inv.payBound slug sender
      rw [← hS, hcl] at hpre
      simp at hpre
      have hflag : (getStakeRec st' slug sender).claimed = true := by
        show (amGet {} (amSet st.stakes (slug, sender)
          { S with claimed := true }) (slug, sender)).claimed = true
        rw [amGet_amSet_self]
      rw [hflag]
      simp
      omega
    · have hflag : getStakeRec st' k a = getStakeRec st k a := by
        show amGet {} (amSet st.stakes (slug, sender)
          { S with claimed := true }) (k, a) = _
        rw [amGet_amSet_ne _ _ _ hka]
        rfl
      rw [hflag, if_neg (by
        intro hcon
        exact hka (by rw [hcon.1, hcon.2]) ), Nat.add_zero]
      exact inv.payBound k a

/-- Appending zero-pay events and changing balances preserves `Inv`. -/
theorem Inv_eventsZero {st : ClawState} (inv : Inv st)
    (b : List (Addr × Nat)) (evs : List Event)
    (hev0 : ∀ k, eventsPaid k evs = 0)
    (hev1 : ∀ k a, (evs.map (eventPayCount k a)).sum = 0) :
    Inv { st with balances := b, events := st.events ++ evs } := by
  set st' : ClawState :=
    { st with balances := b, events := st.events ++ evs } with hst'
  have hpaid : ∀ k, paidOut st' k = paidOut st k := by
    intro k
    show eventsPaid k (st.events ++ evs) = _
    rw [eventsPaid_append, hev0 k]
    rfl
  have hcount : ∀ k a, payCount st' k a = payCount st k a := by
    intro k a
    show ((st.events ++ evs).map (eventPayCount k a)).sum = _
    rw [List.map_append, List.sum_append, hev1 k a]
    rfl
  refine ⟨inv.existsDefault, inv.sumYes, inv.sumNo, ?_, inv.openFlags,
    inv.resolvedPool, ?_, ?_, ?_⟩
  · intro k h1 h2
    rw [hpaid k]
    exact inv.openPaid k h1 h2
  · intro k h1 h2
    rw [hpaid k]
    exact inv.resolvedPaid k h1 h2
  · intro k h1
    rw [hpaid k]
    exact inv.cancelledPaid k h1
  · intro k a
    rw [hcount k a]
    exact inv.payBound k a

theorem Inv_stake_ok {now : Nat} {sender : Addr} {slug : String}
    {isYes : Bool} {amount : Nat} {st st' : ClawState} (inv : Inv st)
    (h : stake now sender slug isYes amount st = .ok st') : Inv st' := by
  obtain ⟨-, -, hres, hcan, -, -, hrec⟩ := stake_ok_elim h
  subst hrec
  exact Inv_applyStake
    (Inv_balances (Inv_createIfAbsent inv slug)
      (transferBal st.balances sender contractAddr amount))
    sender slug isYes amount (createIfAbsent_exists slug st) hres hcan

theorem Inv_recordStake_ok {now : Nat} {sender : Addr} {slug : String}
    {isYes : Bool} {amount : Nat} {st st' : ClawState} (inv : Inv st)
    (h : recordStake now sender slug isYes amount st = .ok st') : Inv st' := by
  obtain ⟨-, hres, hcan, -, hrec⟩ := recordStake_ok_elim h
  subst hrec
  exact Inv_applyStake (Inv_createIfAbsent inv slug)
    sender slug isYes amount (createIfAbsent_exists slug st) hres hcan

theorem Inv_recordStakes_ok {now : Nat} {sender : Addr} :
    ∀ {entries : List (String × Bool × Nat)} {st st' : ClawState},
    Inv st → recordStakes now sender entries st = .ok st' → Inv st'
  | [], st, st', inv, h => by
    simp only [recordStakes] at h
    exact (Except.ok.inj h) ▸ inv
  | (slug, isYes, amount) :: rest, st, st', inv, h => by
    simp only [recordStakes] at h
    rcases hr : recordStake now sender slug isYes amount st with e | st1
    · rw [hr] at h; exact absurd h (by simp)
    · rw [hr] at h
      exact Inv_recordStakes_ok (Inv_recordStake_ok inv hr) h

theorem Inv_batchStake_ok {now : Nat} {sender : Addr} {slugs : List String}
    {sides : List Bool} {amounts : List Nat} {st st' : ClawState}
    (inv : Inv st)
    (h : batchStake now sender slugs sides amounts st = .ok st') : Inv st' := by
  obtain ⟨-, -, total, -, -, hrec⟩ := batchStake_ok_elim h
  exact Inv_recordStakes_ok
    (Inv_balances inv (transferBal st.balances sender contractAddr total)) hrec

theorem Inv_resolve_ok {sender : Addr} {slug : String} {oc : Bool}
    {st st' : ClawState} (inv : Inv st)
    (h : resolve sender slug oc st = .ok st') : Inv st' := by
  obtain ⟨-, hex, hres, hcan, hbr⟩ := resolve_ok_elim h
  rcases hbr with ⟨hw, hst⟩ | ⟨hw, hst⟩
  · subst hst
    refine Inv_setMarketOpen inv slug _ _ hres hcan rfl rfl (by simpa using hex)
      ?_ (by intro k; simp [eventsPaid]) (by intro k a; simp)
    intro _ _
    cases oc <;> simpa [winPool] using Nat.pos_of_ne_zero hw
  · subst hst
    rw [List.append_assoc]
    refine Inv_setMarketOpen inv slug _ _ hres hcan rfl rfl (by simpa using hex)
      ?_ (by intro k; simp [eventsPaid]) (by intro k a; simp)
    intro _ hcon
    simp at hcon

theorem Inv_setDeadline_ok {sender : Addr} {slug : String} {d : Nat}
    {st st' : ClawState} (inv : Inv st)
    (h : setDeadline sender slug d st = .ok st') : Inv st' := by
  obtain ⟨-, hex, hres, hcan, hst⟩ := setDeadline_ok_elim h
  subst hst
  refine Inv_setMarketOpen inv slug _ _ hres hcan rfl rfl (by simpa using hex)
    ?_ (by intro k; simp [eventsPaid]) (by intro k a; simp)
  intro hcon _
  simp only [Market.resolved] at hcon
  rw [hcon] at hres
  simp at hres

theorem Inv_cancelMarket_ok {sender : Addr} {slug : String}
    {st st' : ClawState} (inv : Inv st)
    (h : cancelMarket sender slug st = .ok st') : Inv st' := by
  obtain ⟨-, hex, hres, hcan, hst⟩ := cancelMarket_ok_elim h
  subst hst
  refine Inv_setMarketOpen inv slug _ _ hres hcan rfl rfl (by simpa using hex)
    ?_ (by intro k; simp [eventsPaid]) (by intro k a; simp)
  intro _ hcon
  simp at hcon

theorem Inv_claim_ok {sender : Addr} {slug : String} {st st' : ClawState}
    (inv : Inv st) (h : claim sender slug st = .ok st') : Inv st' := by
  obtain ⟨-, hres, hcan, hcl, -, -, hst⟩ := claim_ok_elim h
  subst hst
  exact Inv_claimApply inv sender slug hres hcan hcl

theorem Inv_refund_ok {now : Nat} {sender : Addr} {slug : String}
    {st st' : ClawState} (inv : Inv st)
    (h : refund now sender slug st = .ok st') : Inv st' := by
  obtain ⟨hex, -, hcl, -, hbr⟩ := refund_ok_elim h
  rcases hbr with ⟨hcanc, hst⟩ | ⟨hcanc, hdl, hgr, hres, hst⟩
  · subst hst
    exact Inv_refundApply inv sender slug hcanc hcl
  · subst hst
    have inv1 : Inv (cancelOnRefund slug st) := by
      refine Inv_setMarketOpen inv slug _ _ hres hcanc rfl rfl
        (by simpa using hex)
        ?_ (by intro k; simp [eventsPaid]) (by intro k a; simp)
      intro _ hcon
      simp at hcon
    have hcan' : (getMarket (cancelOnRefund slug st) slug).cancelled = true := by
      show (amGet {} (amSet st.markets slug
        { getMarket st slug with cancelled := true }) slug).cancelled = true
      rw [amGet_amSet_self]
    exact Inv_refundApply inv1 sender slug hcan' hcl

theorem Inv_emergencyWithdraw_ok {sender : Addr} {amount : Nat}
    {st st' : ClawState} (inv : Inv st)
    (h : emergencyWithdraw sender amount st = .ok st') : Inv st' := by
  obtain ⟨-, -, hst⟩ := emergencyWithdraw_ok_elim h
  subst hst
  exact Inv_eventsZero inv _ _ (by intro k; simp [eventsPaid])
    (by intro k a; simp)

/-- Every call preserves the invariant (a revert keeps the pre-state). -/
theorem Inv_execOp {st : ClawState} (inv : Inv st) (now : Nat) (op : Op) :
    Inv (execOp now op st) := by
  rcases hd : dispatch now op st with e | st'
  · rw [execOp_of_error hd]; exact inv
  · rw [execOp_of_ok hd]
    cases op with
    | opStake sender slug isYes amount => exact Inv_stake_ok inv hd
    | opBatchStake sender slugs sides amounts => exact Inv_batchStake_ok inv hd
    | opResolve sender slug oc => exact Inv_resolve_ok inv hd
    | opClaim sender slug => exact Inv_claim_ok inv hd
    | opRefund sender slug => exact Inv_refund_ok inv hd
    | opSetDeadline sender slug d => exact Inv_setDeadline_ok inv hd
    | opCancelMarket sender slug => exact Inv_cancelMarket_ok inv hd
    | opEmergencyWithdraw sender amount => exact Inv_emergencyWithdraw_ok inv hd

theorem Inv_run {st : ClawState} (inv : Inv st) (tr : List (Nat × Op)) :
    Inv (run st tr) := by
  induction tr generalizing st with
  | nil => exact inv
  | cons x t ih =>
    obtain ⟨now, op⟩ := x
    exact ih (Inv_execOp inv now op)

/-- Every reachable state of the contract satisfies the invariant. -/
theorem Inv_reachable {st : ClawState} (h : Reachable st) : Inv st := by
  obtain ⟨owner, bal0, tr, rfl⟩ := h
  exact Inv_run (Inv_init owner bal0) tr

/-- Solvency follows from the invariant, for every market in every
state satisfying it. -/
theorem solvency_of_Inv {st : ClawState} (inv : Inv st) (k : String) :
    paidOut st k ≤ (getMarket st k).totalYes + (getMarket st k).totalNo := by
  by_cases hcan : (getMarket st k).cancelled = true
  · have h1 := inv.cancelledPaid k hcan
    have h2 : stakeSum claimedAll k st.stakes ≤
        stakeSum (fun s => s.amountYes + s.amountNo) k st.stakes := by
      refine stakeSum_le _ _ _ (fun s => ?_) _
      simp only [claimedAll]
      split <;> omega
    have h3 := stakeSum_add Stake.amountYes Stake.amountNo k st.stakes
    have h4 := inv.sumYes k
    have h5 := inv.sumNo k
    omega
  · have hcan' : (getMarket st k).cancelled = false := by simpa using hcan
    by_cases hres : (getMarket st k).resolved = true
    · have hp := inv.resolvedPool k hres hcan'
      have hIH := inv.resolvedPaid k hres hcan'
      have hw : stakeSum (claimedWin (getMarket st k)) k st.stakes ≤
          winPool (getMarket st k) := by
        have hle : stakeSum (claimedWin (getMarket st k)) k st.stakes ≤
            stakeSum (winAmt (getMarket st k)) k st.stakes := by
          refine stakeSum_le _ _ _ (fun s => ?_) _
          simp only [claimedWin]
          split <;> omega
        have heqW : stakeSum (winAmt (getMarket st k)) k st.stakes =
            winPool (getMarket st k) := by
          rcases hoc : (getMarket st k).outcomeYes with _ | _
          · rw [stakeSum_congr (winAmt (getMarket st k)) Stake.amountNo k
              (fun s => by simp [winAmt, hoc]) st.stakes, inv.sumNo k]
            simp [winPool, hoc]
          · rw [stakeSum_congr (winAmt (getMarket st k)) Stake.amountYes k
              (fun s => by simp [winAmt, hoc]) st.stakes, inv.sumYes k]
            simp [winPool, hoc]
        omega
      have h4 : paidOut st k * winPool (getMarket st k) ≤
          ((getMarket st k).totalYes + (getMarket st k).totalNo) *
            winPool (getMarket st k) := by
        calc paidOut st k * winPool (getMarket st k) ≤
            stakeSum (claimedWin (getMarket st k)) k st.stakes *
              ((getMarket st k).totalYes + (getMarket st k).totalNo) := hIH
          _ ≤ winPool (getMarket st k) *
              ((getMarket st k).totalYes + (getMarket st k).totalNo) :=
            Nat.mul_le_mul_right _ hw
          _ = ((getMarket st k).totalYes + (getMarket st k).totalNo) *
              winPool (getMarket st k) := Nat.mul_comm _ _
      exact Nat.le_of_mul_le_mul_right h4 hp
    · have hres' : (getMarket st k).resolved = false := by simpa using hres
      rw [inv.openPaid k hres' hcan']
      exact Nat.zero_le _

/-- C1 (Solvency): for every deployment, every trace of operations and
every market, the cumulative amount paid out by successful `claim` and
`refund` calls for that market never exceeds the market's
`totalYes + totalNo` at that point in time.  (Every prefix of a trace
is itself a trace, so quantifying over traces covers every intermediate
point.) -/
theorem C1_solvency (owner : Addr) (bal0 : List (Addr × Nat))
    (tr : List (Nat × Op)) (k : String) :
    paidOut (run (initState owner bal0) tr) k ≤
      (getMarket (run (initState owner bal0) tr) k).totalYes +
      (getMarket (run (initState owner bal0) tr) k).totalNo :=
  solvency_of_Inv (Inv_run (Inv_init owner bal0) tr) k

/-! ## No double payout: claimed-flag monotonicity -/

theorem amGet_claimed_mono {l : List ((String × Addr) × Stake)}
    {key : String × Addr} {v : Stake}
    (hv : (amGet {} l key).claimed = true → v.claimed = true)
    {k : String} {a : Addr}
    (h : (amGet ({} : Stake) l (k, a)).claimed = true) :
    (amGet ({} : Stake) (amSet l key v) (k, a)).claimed = true := by
  by_cases hk : key = (k, a)
  · subst hk
    rw [amGet_amSet_self]
    exact hv h
  · rw [amGet_amSet_ne _ _ _ hk]
    exact h

/-- `applyStake` never clears a claimed flag. -/
theorem applyStake_claimed_mono (sender : Addr) (slug : String)
    (isYes : Bool) (amount : Nat) (st : ClawState) {k : String} {a : Addr}
    (h : (getStakeRec st k a).claimed = true) :
    (getStakeRec (applyStake sender slug isYes amount st) k a).claimed =
      true := by
  rw [applyStake_eq]
  show (amGet ({} : Stake) (amSet st.stakes (slug, sender) _) (k, a)).claimed = true
  refine amGet_claimed_mono (fun hold => ?_) h
  simpa using hold

theorem recordStake_claimed_mono {now : Nat} {sender : Addr} {slug : String}
    {isYes : Bool} {amount : Nat} {st st' : ClawState}
    (hok : recordStake now sender slug isYes amount st = .ok st')
    {k : String} {a : Addr}
    (h : (getStakeRec st k a).claimed = true) :
    (getStakeRec st' k a).claimed = true := by
  obtain ⟨-, -, -, -, hst⟩ := recordStake_ok_elim hok
  subst hst
  refine applyStake_claimed_mono sender slug isYes amount _ ?_
  show (amGet ({} : Stake) (createIfAbsent slug st).stakes (k, a)).claimed = true
  rw [createIfAbsent_stakes]
  exact h

theorem recordStakes_claimed_mono {now : Nat} {sender : Addr} :
    ∀ {entries : List (String × Bool × Nat)} {st st' : ClawState},
    recordStakes now sender entries st = .ok st' →
    ∀ {k : String} {a : Addr}, (getStakeRec st k a).claimed = true →
    (getStakeRec st' k a).claimed = true
  | [], st, st', hok, k, a, h => by
    simp only [recordStakes] at hok
    exact (Except.ok.inj hok) ▸ h
  | (slug, isYes, amount) :: rest, st, st', hok, k, a, h => by
    simp only [recordStakes] at hok
    rcases hr : recordStake now sender slug isYes amount st with e | st1
    · rw [hr] at hok; exact absurd hok (by simp)
    · rw [hr] at hok
      exact recordStakes_claimed_mono hok (recordStake_claimed_mono hr h)

/-- No operation ever clears a `claimed` flag. -/
theorem claimed_mono (now : Nat) (op : Op) (st : ClawState)
    (k : String) (a : Addr)
    (h : (getStakeRec st k a).claimed = true) :
    (getStakeRec (execOp now op st) k a).claimed = true := by
  rcases hd : dispatch now op st with e | st'
  · rw [execOp_of_error hd]; exact h
  · rw [execOp_of_ok hd]
    cases op with
    | opStake sender slug isYes amount =>
      obtain ⟨-, -, -, -, -, -, hst⟩ := stake_ok_elim hd
      subst hst
      refine applyStake_claimed_mono sender slug isYes amount _ ?_
      show (amGet ({} : Stake) (createIfAbsent slug st).stakes (k, a)).claimed = true
      rw [createIfAbsent_stakes]
      exact h
    | opBatchStake sender slugs sides amounts =>
      obtain ⟨-, -, total, -, -, hrec⟩ := batchStake_ok_elim hd
      exact recordStakes_claimed_mono hrec h
    | opResolve sender slug oc =>
      obtain ⟨-, -, -, -, hbr⟩ := resolve_ok_elim hd
      rcases hbr with ⟨-, hst⟩ | ⟨-, hst⟩ <;> subst hst <;> exact h
    | opClaim sender slug =>
      obtain ⟨-, -, -, -, -, -, hst⟩ := claim_ok_elim hd
      subst hst
      show (amGet ({} : Stake) (amSet st.stakes (slug, sender) _) (k, a)).claimed = true
      exact amGet_claimed_mono (fun _ => rfl) h
    | opRefund sender slug =>
      obtain ⟨-, -, -, -, hbr⟩ := refund_ok_elim hd
      rcases hbr with ⟨-, hst⟩ | ⟨-, -, -, -, hst⟩ <;> subst hst <;>
        exact amGet_claimed_mono (fun _ => rfl) h
    | opSetDeadline sender slug d =>
      obtain ⟨-, -, -, -, hst⟩ := setDeadline_ok_elim hd
      subst hst; exact h
    | opCancelMarket sender slug =>
      obtain ⟨-, -, -, -, hst⟩ := cancelMarket_ok_elim hd
      subst hst; exact h
    | opEmergencyWithdraw sender amount =>
      obtain ⟨-, -, hst⟩ := emergencyWithdraw_ok_elim hd
      subst hst; exact h

/-- With the flag set, `claim` always reverts. -/
theorem claim_claimed_errors (sender : Addr) (slug : String)
    (st : ClawState) (h : (getStakeRec st slug sender).claimed = true) :
    ∃ e, claim sender slug st = .error e := by
  unfold claim
  simp only [keccak256_eq]
  by_cases hex : (getMarket st slug).exists_ = false
  · exact ⟨_, by rw [if_pos hex]⟩
  rw [if_neg hex]
  by_cases hres : (getMarket st slug).resolved = false
  · exact ⟨_, by rw [if_pos hres]⟩
  rw [if_neg hres]
  by_cases hcan : (getMarket st slug).cancelled
  · exact ⟨_, by rw [if_pos hcan]⟩
  rw [if_neg hcan]
  exact ⟨_, by rw [if_pos h]⟩

/-- With the flag set, `refund` always reverts. -/
theorem refund_claimed_errors (now : Nat) (sender : Addr) (slug : String)
    (st : ClawState) (h : (getStakeRec st slug sender).claimed = true) :
    ∃ e, refund now sender slug st = .error e := by
  unfold refund
  simp only [keccak256_eq]
  by_cases hex : (getMarket st slug).exists_ = false
  · exact ⟨_, by rw [if_pos hex]⟩
  rw [if_neg hex]
  by_cases helig : ¬ (getMarket st slug).cancelled ∧
      ¬ (0 < (getMarket st slug).deadline ∧
        (getMarket st slug).deadline + REFUND_GRACE_PERIOD < now ∧
        (getMarket st slug).resolved = false)
  · exact ⟨_, by rw [if_pos helig]⟩
  rw [if_neg helig]
  by_cases hcond : (0 < (getMarket st slug).deadline ∧
      (getMarket st slug).deadline + REFUND_GRACE_PERIOD < now ∧
      (getMarket st slug).resolved = false) ∧
      (getMarket st slug).cancelled = false
  · rw [if_pos hcond]
    simp only [getStakeRec_mk, bal_mk]
    refine ⟨Err.NothingToRefund, ?_⟩
    rw [if_pos (Or.inr (by exact h))]
  · rw [if_neg hcond]
    refine ⟨Err.NothingToRefund, ?_⟩
    rw [if_pos (Or.inr (by exact h))]

/-- C2 (No double payout): in every reachable state, each
(market, participant) pair has received at most one claim-or-refund
payout; the pair's `claimed` flag is never cleared by any operation;
and once it is set, any later `claim` or `refund` call by that
participant for that market reverts (hence pays nothing). -/
theorem C2_no_double_payout {st : ClawState} (h : Reachable st)
    (k : String) (a : Addr) (now : Nat) (op : Op) :
    payCount st k a ≤ 1 ∧
    ((getStakeRec st k a).claimed = true →
      (getStakeRec (execOp now op st) k a).claimed = true) ∧
    ((getStakeRec st k a).claimed = true →
      (∃ e, dispatch now (.opClaim a k) st = .error e) ∧
      (∃ e, dispatch now (.opRefund a k) st = .error e)) := by
  have inv := Inv_reachable h
  refine ⟨?_, fun hc => claimed_mono now op st k a hc,
    fun hc => ⟨claim_claimed_errors a k st hc,
      refund_claimed_errors now a k st hc⟩⟩
  have hb := inv.payBound k a
  split at hb <;> omega

/-- Witness for C2: a trace in which participant 1 stakes, the owner
cancels, and 1 is refunded; the pair's flag is then set, the payout
count is 1 ≤ 1, and a further claim or refund reverts. -/
theorem C2_no_double_payout_witness :
    payCount (run (initState 9 [(1, 2000000)])
      [(10, .opStake 1 "m" true 1000000), (11, .opCancelMarket 9 "m"),
        (12, .opRefund 1 "m")]) "m" 1 ≤ 1 ∧
    (getStakeRec (execOp 13 (.opClaim 1 "m")
      (run (initState 9 [(1, 2000000)])
        [(10, .opStake 1 "m" true 1000000), (11, .opCancelMarket 9 "m"),
          (12, .opRefund 1 "m")])) "m" 1).claimed = true ∧
    (∃ e, dispatch 13 (.opClaim 1 "m")
      (run (initState 9 [(1, 2000000)])
        [(10, .opStake 1 "m" true 1000000), (11, .opCancelMarket 9 "m"),
          (12, .opRefund 1 "m")]) = .error e) ∧
    (∃ e, dispatch 13 (.opRefund 1 "m")
      (run (initState 9 [(1, 2000000)])
        [(10, .opStake 1 "m" true 1000000), (11, .opCancelMarket 9 "m"),
          (12, .opRefund 1 "m")]) = .error e) := by
  have thm := C2_no_double_payout
    ⟨9, [(1, 2000000)],
      [(10, .opStake 1 "m" true 1000000), (11, .opCancelMarket 9 "m"),
        (12, .opRefund 1 "m")], rfl⟩ "m" 1 13 (.opClaim 1 "m")
  exact ⟨thm.1, thm.2.1 (by decide), (thm.2.2 (by decide)).1,
    (thm.2.2 (by decide)).2⟩

/-! ## Terminal lifecycle flags -/

theorem createIfAbsent_getMarket_ne {slug k : String} (st : ClawState)
    (hk : slug ≠ k) : getMarket (createIfAbsent slug st) k = getMarket st k := by
  by_cases hex : (getMarket st slug).exists_ = true
  · rw [createIfAbsent_of_exists hex]
  · rw [createIfAbsent_of_absent (by simpa using hex)]
    simp [getMarket, amGet_amSet_ne _ _ _ hk]

/-- A successful `_recordStake` never lowers a market's `resolved` or
`cancelled` flag (given the reachable-state invariant). -/
theorem recordStake_flags_mono {now : Nat} {sender : Addr} {slug : String}
    {isYes : Bool} {amount : Nat} {st st' : ClawState} (inv : Inv st)
    (h : recordStake now sender slug isYes amount st = .ok st') (k : String) :
    ((getMarket st k).resolved = true → (getMarket st' k).resolved = true) ∧
    ((getMarket st k).cancelled = true →
      (getMarket st' k).cancelled = true) := by
  obtain ⟨-, hres, hcan, -, hst⟩ := recordStake_ok_elim h
  subst hst
  by_cases hks : slug = k
  · subst hks
    constructor
    · intro h1
      exfalso
      by_cases hex : (getMarket st slug).exists_ = true
      · rw [createIfAbsent_of_exists hex] at hres
        rw [h1] at hres; simp at hres
      · rw [inv.existsDefault slug (by simpa using hex)] at h1
        simp at h1
    · intro h1
      exfalso
      by_cases hex : (getMarket st slug).exists_ = true
      · rw [createIfAbsent_of_exists hex] at hcan
        rw [h1] at hcan; simp at hcan
      · rw [inv.existsDefault slug (by simpa using hex)] at h1
        simp at h1
  · rw [applyStake_eq]
    have hfr : getMarket (applyStake sender slug isYes amount
        (createIfAbsent slug st)) k = getMarket st k := by
      rw [applyStake_eq]
      show amGet {} (amSet (createIfAbsent slug st).markets slug _) k = _
      rw [amGet_amSet_ne _ _ _ hks]
      exact createIfAbsent_getMarket_ne st hks
    rw [applyStake_eq] at hfr
    rw [hfr]
    exact ⟨id, id⟩

theorem recordStakes_flags_mono {now : Nat} {sender : Addr} :
    ∀ {entries : List (String × Bool × Nat)} {st st' : ClawState},
    Inv st → recordStakes now sender entries st = .ok st' → ∀ k,
    ((getMarket st k).resolved = true → (getMarket st' k).resolved = true) ∧
    ((getMarket st k).cancelled = true → (getMarket st' k).cancelled = true)
  | [], st, st', inv, h, k => by
    simp only [recordStakes] at h
    rw [← Except.ok.inj h]
    exact ⟨id, id⟩
  | (slug, isYes, amount) :: rest, st, st', inv, h, k => by
    simp only [recordStakes] at h
    rcases hr : recordStake now sender slug isYes amount st with e | st1
    · rw [hr] at h; exact absurd h (by simp)
    · rw [hr] at h
      have h1 := recordStake_flags_mono inv hr k
      have h2 := recordStakes_flags_mono (Inv_recordStake_ok inv hr) h k
      exact ⟨fun hx => h2.1 (h1.1 hx), fun hx => h2.2 (h1.2 hx)⟩

/-- Once `resolved` or `cancelled` is set, no successful operation ever
clears it. -/
theorem flags_mono_ok {now : Nat} {op : Op} {st st' : ClawState}
    (inv : Inv st) (h : dispatch now op st = .ok st') (k : String) :
    ((getMarket st k).resolved = true → (getMarket st' k).resolved = true) ∧
    ((getMarket st k).cancelled = true →
      (getMarket st' k).cancelled = true) := by
  cases op with
  | opStake sender slug isYes amount =>
    obtain ⟨-, -, hres, hcan, -, -, hst⟩ := stake_ok_elim h
    subst hst
    by_cases hks : slug = k
    · subst hks
      constructor
      · intro h1
        exfalso
        by_cases hex : (getMarket st slug).exists_ = true
        · rw [createIfAbsent_of_exists hex] at hres
          rw [h1] at hres; simp at hres
        · rw [inv.existsDefault slug (by simpa using hex)] at h1
          simp at h1
      · intro h1
        exfalso
        by_cases hex : (getMarket st slug).exists_ = true
        · rw [createIfAbsent_of_exists hex] at hcan
          rw [h1] at hcan; simp at hcan
        · rw [inv.existsDefault slug (by simpa using hex)] at h1
          simp at h1
    · have hfr : getMarket (applyStake sender slug isYes amount
          { createIfAbsent slug st with
            balances := transferBal st.balances sender contractAddr amount })
          k = getMarket st k := by
        rw [applyStake_eq]
        show amGet {} (amSet (createIfAbsent slug st).markets slug _) k = _
        rw [amGet_amSet_ne _ _ _ hks]
        exact createIfAbsent_getMarket_ne st hks
      rw [hfr]
      exact ⟨id, id⟩
  | opBatchStake sender slugs sides amounts =>
    obtain ⟨-, -, total, -, -, hrec⟩ := batchStake_ok_elim h
    exact recordStakes_flags_mono
      (Inv_balances inv (transferBal st.balances sender contractAddr total))
      hrec k
  | opResolve sender slug oc =>
    obtain ⟨-, -, hres, hcan, hbr⟩ := resolve_ok_elim h
    by_cases hks : slug = k
    · subst hks
      rcases hbr with ⟨-, hst⟩ | ⟨-, hst⟩ <;> subst hst <;>
        constructor <;> intro h1
      · show (amGet {} (amSet st.markets slug _) slug).resolved = true
        rw [amGet_amSet_self]
      · rw [h1] at hcan; simp at hcan
      · show (amGet {} (amSet st.markets slug _) slug).resolved = true
        rw [amGet_amSet_self]
      · rw [h1] at hcan; simp at hcan
    · rcases hbr with ⟨-, hst⟩ | ⟨-, hst⟩ <;> subst hst <;>
        (show ((getMarket st k).resolved = true →
          (amGet {} (amSet st.markets slug _) k).resolved = true) ∧
          ((getMarket st k).cancelled = true →
            (amGet {} (amSet st.markets slug _) k).cancelled = true)) <;>
        rw [amGet_amSet_ne _ _ _ hks] <;> exact ⟨id, id⟩
  | opClaim sender slug =>
    obtain ⟨-, -, -, -, -, -, hst⟩ := claim_ok_elim h
    subst hst
    exact ⟨id, id⟩
  | opRefund sender slug =>
    obtain ⟨-, -, -, -, hbr⟩ := refund_ok_elim h
    rcases hbr with ⟨-, hst⟩ | ⟨-, -, -, -, hst⟩ <;> subst hst
    · exact ⟨id, id⟩
    · by_cases hks : slug = k
      · subst hks
        constructor <;> intro h1
        · show (amGet {} (amSet st.markets slug
            { getMarket st slug with cancelled := true }) slug).resolved = true
          rw [amGet_amSet_self]
          exact h1
        · show (amGet {} (amSet st.markets slug
            { getMarket st slug with cancelled := true }) slug).cancelled = true
          rw [amGet_amSet_self]
      · show ((getMarket st k).resolved = true →
          (amGet {} (amSet st.markets slug _) k).resolved = true) ∧
          ((getMarket st k).cancelled = true →
            (amGet {} (amSet st.markets slug _) k).cancelled = true)
        rw [amGet_amSet_ne _ _ _ hks]
        exact ⟨id, id⟩
  | opSetDeadline sender slug d =>
    obtain ⟨-, -, -, -, hst⟩ := setDeadline_ok_elim h
    subst hst
    by_cases hks : slug = k
    · subst hks
      constructor <;> intro h1
      · show (amGet {} (amSet st.markets slug
          { getMarket st slug with deadline := d }) slug).resolved = true
        rw [amGet_amSet_self]
        exact h1
      · show (amGet {} (amSet st.markets slug
          { getMarket st slug with deadline := d }) slug).cancelled = true
        rw [amGet_amSet_self]
        exact h1
    · show ((getMarket st k).resolved = true →
        (amGet {} (amSet st.markets slug _) k).resolved = true) ∧
        ((getMarket st k).cancelled = true →
          (amGet {} (amSet st.markets slug _) k).cancelled = true)
      rw [amGet_amSet_ne _ _ _ hks]
      exact ⟨id, id⟩
  | opCancelMarket sender slug =>
    obtain ⟨-, -, -, -, hst⟩ := cancelMarket_ok_elim h
    subst hst
    by_cases hks : slug = k
    · subst hks
      constructor <;> intro h1
      · show (amGet {} (amSet st.markets slug
          { getMarket st slug with cancelled := true }) slug).resolved = true
        rw [amGet_amSet_self]
        exact h1
      · show (amGet {} (amSet st.markets slug
          { getMarket st slug with cancelled := true }) slug).cancelled = true
        rw [amGet_amSet_self]
    · show ((getMarket st k).resolved = true →
        (amGet {} (amSet st.markets slug _) k).resolved = true) ∧
        ((getMarket st k).cancelled = true →
          (amGet {} (amSet st.markets slug _) k).cancelled = true)
      rw [amGet_amSet_ne _ _ _ hks]
      exact ⟨id, id⟩
  | opEmergencyWithdraw sender amount =>
    obtain ⟨-, -, hst⟩ := emergencyWithdraw_ok_elim h
    subst hst
    exact ⟨id, id⟩

/-- C8 (Terminal lifecycle flags): in every reachable state, for every
market and every operation, `resolved = true` stays true and
`cancelled = true` stays true after the operation executes — no
transition leaves the Resolved or Voided state. -/
theorem C8_flags_terminal {st : ClawState} (h : Reachable st)
    (now : Nat) (op : Op) (k : String) :
    ((getMarket st k).resolved = true →
      (getMarket (execOp now op st) k).resolved = true) ∧
    ((getMarket st k).cancelled = true →
      (getMarket (execOp now op st) k).cancelled = true) := by
  rcases hd : dispatch now op st with e | st'
  · rw [execOp_of_error hd]; exact ⟨id, id⟩
  · rw [execOp_of_ok hd]
    exact flags_mono_ok (Inv_reachable h) hd k

/-- Witness for C8: a resolved market stays resolved and an auto-voided
market stays cancelled across a further operation. -/
theorem C8_flags_terminal_witness :
    (getMarket (run (initState 9 [(1, 2000000)])
      [(10, .opStake 1 "m" true 1000000), (11, .opResolve 9 "m" false)])
      "m").resolved = true ∧
    (getMarket (execOp 12 (.opStake 1 "m" true 1000000)
      (run (initState 9 [(1, 2000000)])
        [(10, .opStake 1 "m" true 1000000), (11, .opResolve 9 "m" false)]))
      "m").resolved = true ∧
    (getMarket (execOp 12 (.opStake 1 "m" true 1000000)
      (run (initState 9 [(1, 2000000)])
        [(10, .opStake 1 "m" true 1000000), (11, .opResolve 9 "m" false)]))
      "m").cancelled = true := by
  have thm := C8_flags_terminal
    ⟨9, [(1, 2000000)],
      [(10, .opStake 1 "m" true 1000000), (11, .opResolve 9 "m" false)], rfl⟩
    12 (.opStake 1 "m" true 1000000) "m"
  exact ⟨by decide, thm.1 (by decide), thm.2 (by decide)⟩

/-! ## Success constructions for claim and refund -/

/-- When all of `claim`'s checks pass, it succeeds with exactly the
proportional payout. -/
theorem claim_success {st : ClawState} {sender : Addr} {slug : String}
    (hex : (getMarket st slug).exists_ = true)
    (hres : (getMarket st slug).resolved = true)
    (hcan : (getMarket st slug).cancelled = false)
    (hcl : (getStakeRec st slug sender).claimed = false)
    (hw : ¬ winAmt (getMarket st slug) (getStakeRec st slug sender) = 0)
    (hbal : winAmt (getMarket st slug) (getStakeRec st slug sender) *
      ((getMarket st slug).totalYes + (getMarket st slug).totalNo) /
      winPool (getMarket st slug) ≤ bal st contractAddr) :
    claim sender slug st = .ok { st with
      stakes := amSet st.stakes (slug, sender)
        { getStakeRec st slug sender with claimed := true }
      balances := transferBal st.balances contractAddr sender
        (winAmt (getMarket st slug) (getStakeRec st slug sender) *
          ((getMarket st slug).totalYes + (getMarket st slug).totalNo) /
          winPool (getMarket st slug))
      events := st.events ++ [.Claimed slug sender
        (winAmt (getMarket st slug) (getStakeRec st slug sender) *
          ((getMarket st slug).totalYes + (getMarket st slug).totalNo) /
          winPool (getMarket st slug))] } := by
  simp only [winAmt, winPool] at hw hbal ⊢
  unfold claim
  simp only [keccak256_eq]
  rw [if_neg (by rw [hex]; simp),
    if_neg (by rw [hres]; simp),
    if_neg (by rw [hcan]; simp),
    if_neg (by rw [hcl]; simp),
    if_neg hw,
    if_neg (by omega)]

/-- When the market is cancelled (and resolved), `claim` reverts with
the voided error. -/
theorem claim_on_cancelled {st : ClawState} (sender : Addr) (slug : String)
    (hex : (getMarket st slug).exists_ = true)
    (hres : (getMarket st slug).resolved = true)
    (hcan : (getMarket st slug).cancelled = true) :
    claim sender slug st = .error .MarketIsCancelled := by
  unfold claim
  simp only [keccak256_eq]
  rw [if_neg (by rw [hex]; simp),
    if_neg (by rw [hres]; simp),
    if_pos hcan]

/-- A staker of a cancelled market with an unclaimed position is
refunded their full stake. -/
theorem refund_on_cancelled {st : ClawState} (now : Nat) (sender : Addr)
    (slug : String)
    (hex : (getMarket st slug).exists_ = true)
    (hcan : (getMarket st slug).cancelled = true)
    (hz : ¬ ((getStakeRec st slug sender).amountYes +
      (getStakeRec st slug sender).amountNo) = 0)
    (hcl : (getStakeRec st slug sender).claimed = false)
    (hbal : (getStakeRec st slug sender).amountYes +
      (getStakeRec st slug sender).amountNo ≤ bal st contractAddr) :
    refund now sender slug st = .ok (refundApply sender slug st) := by
  unfold refund
  simp only [keccak256_eq]
  rw [if_neg (show ¬ (getMarket st slug).exists_ = false by rw [hex]; simp)]
  rw [if_neg (show ¬ (¬ (getMarket st slug).cancelled ∧
    ¬ (0 < (getMarket st slug).deadline ∧
      (getMarket st slug).deadline + REFUND_GRACE_PERIOD < now ∧
      (getMarket st slug).resolved = false)) by rw [hcan]; simp)]
  rw [if_neg (show ¬ ((0 < (getMarket st slug).deadline ∧
    (getMarket st slug).deadline + REFUND_GRACE_PERIOD < now ∧
    (getMarket st slug).resolved = false) ∧
    (getMarket st slug).cancelled = false) by rw [hcan]; simp)]
  rw [if_neg (show ¬ ((getStakeRec st slug sender).amountYes +
    (getStakeRec st slug sender).amountNo = 0 ∨
    (getStakeRec st slug sender).claimed = true) by rw [hcl]; simpa using hz)]
  rw [if_neg (show ¬ bal st contractAddr <
    (getStakeRec st slug sender).amountYes +
    (getStakeRec st slug sender).amountNo by omega)]
  rfl

/-- C3 (Proportional payout): on a resolved, uncancelled market, a
caller holding winning-side stake `w > 0` with an unset flag receives
exactly `floor(w * (totalYes + totalNo) / winningPool)` from a
successful claim, recorded in the `Claimed` event and credited to the
caller's token balance. -/
theorem C3_proportional_payout {st : ClawState} {sender : Addr}
    {slug : String}
    (hex : (getMarket st slug).exists_ = true)
    (hres : (getMarket st slug).resolved = true)
    (hcan : (getMarket st slug).cancelled = false)
    (hcl : (getStakeRec st slug sender).claimed = false)
    (hw : ¬ winAmt (getMarket st slug) (getStakeRec st slug sender) = 0)
    (hbal : winAmt (getMarket st slug) (getStakeRec st slug sender) *
      ((getMarket st slug).totalYes + (getMarket st slug).totalNo) /
      winPool (getMarket st slug) ≤ bal st contractAddr)
    (hsc : ¬ sender = contractAddr) :
    ∃ st', claim sender slug st = .ok st' ∧
      st'.events = st.events ++ [.Claimed slug sender
        (winAmt (getMarket st slug) (getStakeRec st slug sender) *
          ((getMarket st slug).totalYes + (getMarket st slug).totalNo) /
          winPool (getMarket st slug))] ∧
      bal st' sender = bal st sender +
        winAmt (getMarket st slug) (getStakeRec st slug sender) *
          ((getMarket st slug).totalYes + (getMarket st slug).totalNo) /
          winPool (getMarket st slug) := by
  refine ⟨_, claim_success hex hres hcan hcl hw hbal, rfl, ?_⟩
  show amGet 0 (transferBal st.balances contractAddr sender _) sender = _
  rw [amGet_transferBal_to (fun hc => hsc hc.symm)]
  rfl

/-- Witness for C3: the spec's example — stakes YES=30 by A(=1),
YES=10 by B(=2), NO=40 by a third party(=3), resolution YES (amounts in
units of 10⁻⁶ USDC); A's claim pays 60, then B's claim pays 20. -/
theorem C3_proportional_payout_witness :
    (winAmt (getMarket (run (initState 9 [(1, 10 ^ 8), (2, 10 ^ 8), (3, 10 ^ 8)])
        [(10, .opStake 1 "m" true 30000000), (10, .opStake 2 "m" true 10000000),
          (10, .opStake 3 "m" false 40000000), (20, .opResolve 9 "m" true)]) "m")
      (getStakeRec (run (initState 9 [(1, 10 ^ 8), (2, 10 ^ 8), (3, 10 ^ 8)])
        [(10, .opStake 1 "m" true 30000000), (10, .opStake 2 "m" true 10000000),
          (10, .opStake 3 "m" false 40000000), (20, .opResolve 9 "m" true)]) "m" 1) *
      ((getMarket (run (initState 9 [(1, 10 ^ 8), (2, 10 ^ 8), (3, 10 ^ 8)])
        [(10, .opStake 1 "m" true 30000000), (10, .opStake 2 "m" true 10000000),
          (10, .opStake 3 "m" false 40000000), (20, .opResolve 9 "m" true)]) "m").totalYes +
        (getMarket (run (initState 9 [(1, 10 ^ 8), (2, 10 ^ 8), (3, 10 ^ 8)])
        [(10, .opStake 1 "m" true 30000000), (10, .opStake 2 "m" true 10000000),
          (10, .opStake 3 "m" false 40000000), (20, .opResolve 9 "m" true)]) "m").totalNo) /
      winPool (getMarket (run (initState 9 [(1, 10 ^ 8), (2, 10 ^ 8), (3, 10 ^ 8)])
        [(10, .opStake 1 "m" true 30000000), (10, .opStake 2 "m" true 10000000),
          (10, .opStake 3 "m" false 40000000), (20, .opResolve 9 "m" true)]) "m") =
      60000000) ∧
    (∃ st', claim 1 "m" (run (initState 9 [(1, 10 ^ 8), (2, 10 ^ 8), (3, 10 ^ 8)])
        [(10, .opStake 1 "m" true 30000000), (10, .opStake 2 "m" true 10000000),
          (10, .opStake 3 "m" false 40000000), (20, .opResolve 9 "m" true)]) = .ok st' ∧
      bal st' 1 = 130000000) := by
  constructor
  · decide
  · obtain ⟨st', hok, -, hbal⟩ := @C3_proportional_payout
      (run (initState 9 [(1, 10 ^ 8), (2, 10 ^ 8), (3, 10 ^ 8)])
        [(10, .opStake 1 "m" true 30000000), (10, .opStake 2 "m" true 10000000),
          (10, .opStake 3 "m" false 40000000), (20, .opResolve 9 "m" true)])
      1 "m"
      (by decide) (by decide) (by decide) (by decide) (by decide) (by decide)
      (by decide)
    exact ⟨st', hok, by rw [hbal]; decide⟩

/-- C4 (Auto-void on empty winning side): on an existing, unresolved,
uncancelled market, `resolve` succeeds, records the outcome, computes
the winning pool from the pre-resolution totals, and sets `cancelled`
exactly when that pool is zero.  After such an auto-void, `claim`
reverts with the voided error while `refund` pays each unclaimed
participant their full stake. -/
theorem C4_auto_void {st : ClawState} {sender : Addr} {slug : String}
    {oc : Bool}
    (howner : sender = st.owner)
    (hex : (getMarket st slug).exists_ = true)
    (hres : (getMarket st slug).resolved = false)
    (hcan : (getMarket st slug).cancelled = false) :
    ∃ st', resolve sender slug oc st = .ok st' ∧
      (getMarket st' slug).resolved = true ∧
      (getMarket st' slug).outcomeYes = oc ∧
      (getMarket st' slug).totalYes = (getMarket st slug).totalYes ∧
      (getMarket st' slug).totalNo = (getMarket st slug).totalNo ∧
      ((getMarket st' slug).cancelled = true ↔
        (if oc then (getMarket st slug).totalYes
          else (getMarket st slug).totalNo) = 0) ∧
      ((if oc then (getMarket st slug).totalYes
          else (getMarket st slug).totalNo) = 0 →
        (∀ a now2, dispatch now2 (.opClaim a slug) st' =
          .error .MarketIsCancelled) ∧
        (∀ a now2, ¬ ((getStakeRec st slug a).amountYes +
            (getStakeRec st slug a).amountNo) = 0 →
          (getStakeRec st slug a).claimed = false →
          (getStakeRec st slug a).amountYes +
            (getStakeRec st slug a).amountNo ≤ bal st contractAddr →
          ¬ a = contractAddr →
          ∃ st'', refund now2 a slug st' = .ok st'' ∧
            bal st'' a = bal st a + ((getStakeRec st slug a).amountYes +
              (getStakeRec st slug a).amountNo))) := by
  have hstep : resolve sender slug oc st =
      if (if oc then (getMarket st slug).totalYes
        else (getMarket st slug).totalNo) = 0 then
        .ok { st with
          markets := amSet st.markets slug
            { getMarket st slug with
              resolved := true, outcomeYes := oc, cancelled := true }
          events := (st.events ++ [.MarketResolved slug oc]) ++
            [.MarketCancelled slug] }
      else
        .ok { st with
          markets := amSet st.markets slug
            { getMarket st slug with resolved := true, outcomeYes := oc }
          events := st.events ++ [.MarketResolved slug oc] } := by
    unfold resolve
    rw [if_neg (not_not_intro howner)]
    simp only [keccak256_eq]
    rw [if_neg (show ¬ (getMarket st slug).exists_ = false by rw [hex]; simp),
      if_neg (show ¬ (getMarket st slug).resolved = true by rw [hres]; simp),
      if_neg (show ¬ (getMarket st slug).cancelled = true by rw [hcan]; simp)]
    by_cases hw : (if oc then (getMarket st slug).totalYes
      else (getMarket st slug).totalNo) = 0
    · rw [if_pos hw, if_pos hw]
      simp [amSet_amSet]
    · rw [if_neg hw, if_neg hw]
  by_cases hw : (if oc then (getMarket st slug).totalYes
    else (getMarket st slug).totalNo) = 0
  · rw [if_pos hw] at hstep
    refine ⟨_, hstep, ?_⟩
    have g : getMarket { st with
        markets := amSet st.markets slug
          { getMarket st slug with
            resolved := true, outcomeYes := oc, cancelled := true }
        events := (st.events ++ [.MarketResolved slug oc]) ++
          [.MarketCancelled slug] } slug =
        { getMarket st slug with
          resolved := true, outcomeYes := oc, cancelled := true } := by
      simp [getMarket, amGet_amSet_self]
    rw [g]
    refine ⟨rfl, rfl, rfl, rfl, by simpa using hw, fun _ => ⟨?_, ?_⟩⟩
    · intro a now2
      show claim a slug _ = .error .MarketIsCancelled
      exact claim_on_cancelled a slug (by rw [g]; exact hex) (by rw [g])
        (by rw [g])
    · intro a now2 hz hcl hbal hac
      refine ⟨_, refund_on_cancelled now2 a slug (by rw [g]; exact hex)
        (by rw [g]) hz hcl hbal, ?_⟩
      show amGet 0 (transferBal st.balances contractAddr a _) a = _
      rw [amGet_transferBal_to (fun hc => hac hc.symm)]
      rfl
  · rw [if_neg hw] at hstep
    refine ⟨_, hstep, ?_⟩
    have g : getMarket { st with
        markets := amSet st.markets slug
          { getMarket st slug with resolved := true, outcomeYes := oc }
        events := st.events ++ [.MarketResolved slug oc] } slug =
        { getMarket st slug with resolved := true, outcomeYes := oc } := by
      simp [getMarket, amGet_amSet_self]
    rw [g]
    refine ⟨rfl, rfl, rfl, rfl, ?_, fun hcon => absurd hcon hw⟩
    show (getMarket st slug).cancelled = true ↔ _
    rw [hcan]
    simp [hw]

/-- Witness for C4: stake 10 USDC on YES only, resolve NO — the market
is resolved and auto-cancelled, claim reverts with the voided error,
and the staker's refund returns the full 10 USDC. -/
theorem C4_auto_void_witness :
    ∃ st', resolve 9 "m" false
        (run (initState 9 [(1, 100000000)])
          [(10, .opStake 1 "m" true 10000000)]) = .ok st' ∧
      (getMarket st' "m").resolved = true ∧
      (getMarket st' "m").cancelled = true ∧
      (∀ a now2, dispatch now2 (.opClaim a "m") st' =
        .error .MarketIsCancelled) ∧
      (∃ st'', refund 50 1 "m" st' = .ok st'' ∧ bal st'' 1 = 100000000) := by
  obtain ⟨st', hok, hres', -, -, -, hcancIff, himp⟩ :=
    @C4_auto_void (run (initState 9 [(1, 100000000)])
        [(10, .opStake 1 "m" true 10000000)])
      9 "m" false
      (by decide) (by decide) (by decide) (by decide)
  have hw : (if false then
      (getMarket (run (initState 9 [(1, 100000000)])
        [(10, .opStake 1 "m" true 10000000)]) "m").totalYes
      else (getMarket (run (initState 9 [(1, 100000000)])
        [(10, .opStake 1 "m" true 10000000)]) "m").totalNo) = 0 := by decide
  obtain ⟨hclaim, hrefund⟩ := himp hw
  obtain ⟨st'', hok2, hbal2⟩ := hrefund 1 50 (by decide) (by decide)
    (by decide) (by decide)
  exact ⟨st', hok, hres', hcancIff.mpr hw, hclaim,
    st'', hok2, by rw [hbal2]; decide⟩

/-- On an expired, unresolved, not-yet-cancelled market, `refund`
succeeds via the lazy-void path. -/
theorem refund_on_expired {st : ClawState} (now : Nat) (sender : Addr)
    (slug : String)
    (hex : (getMarket st slug).exists_ = true)
    (hcanF : (getMarket st slug).cancelled = false)
    (hdl : 0 < (getMarket st slug).deadline)
    (hgr : (getMarket st slug).deadline + REFUND_GRACE_PERIOD < now)
    (hresF : (getMarket st slug).resolved = false)
    (hz : ¬ ((getStakeRec st slug sender).amountYes +
      (getStakeRec st slug sender).amountNo) = 0)
    (hcl : (getStakeRec st slug sender).claimed = false)
    (hbal : (getStakeRec st slug sender).amountYes +
      (getStakeRec st slug sender).amountNo ≤ bal st contractAddr) :
    refund now sender slug st =
      .ok (refundApply sender slug (cancelOnRefund slug st)) := by
  unfold refund
  simp only [keccak256_eq]
  rw [if_neg (show ¬ (getMarket st slug).exists_ = false by rw [hex]; simp)]
  rw [if_neg (show ¬ (¬ (getMarket st slug).cancelled ∧
    ¬ (0 < (getMarket st slug).deadline ∧
      (getMarket st slug).deadline + REFUND_GRACE_PERIOD < now ∧
      (getMarket st slug).resolved = false)) by
    intro hcon
    exact hcon.2 ⟨hdl, hgr, hresF⟩)]
  rw [if_pos (show (0 < (getMarket st slug).deadline ∧
    (getMarket st slug).deadline + REFUND_GRACE_PERIOD < now ∧
    (getMarket st slug).resolved = false) ∧
    (getMarket st slug).cancelled = false from ⟨⟨hdl, hgr, hresF⟩, hcanF⟩)]
  simp only [getStakeRec_mk, bal_mk]
  rw [if_neg (show ¬ ((amGet ({} : Stake) st.stakes (slug, sender)).amountYes +
    (amGet ({} : Stake) st.stakes (slug, sender)).amountNo = 0 ∨
    (amGet ({} : Stake) st.stakes (slug, sender)).claimed = true) by
    rw [show (amGet ({} : Stake) st.stakes (slug, sender)) =
      getStakeRec st slug sender from rfl, hcl]
    simpa using hz)]
  rw [if_neg (show ¬ amGet 0 st.balances contractAddr <
    (amGet ({} : Stake) st.stakes (slug, sender)).amountYes +
    (amGet ({} : Stake) st.stakes (slug, sender)).amountNo by
    show ¬ bal st contractAddr < (getStakeRec st slug sender).amountYes +
      (getStakeRec st slug sender).amountNo
    omega)]
  rfl

/-- `resolve` always reverts on a cancelled market. -/
theorem resolve_on_cancelled {st : ClawState} (s2 : Addr) (slug : String)
    (oc : Bool) (hcan : (getMarket st slug).cancelled = true) :
    ∃ e, resolve s2 slug oc st = .error e := by
  unfold resolve
  by_cases h0 : s2 = st.owner
  swap
  · exact ⟨_, by rw [if_pos h0]⟩
  rw [if_neg (not_not_intro h0)]
  simp only [keccak256_eq]
  by_cases hex : (getMarket st slug).exists_ = false
  · exact ⟨_, by rw [if_pos hex]⟩
  rw [if_neg hex]
  by_cases hres : (getMarket st slug).resolved
  · exact ⟨_, by rw [if_pos hres]⟩
  rw [if_neg hres]
  exact ⟨_, by rw [if_pos hcan]⟩

/-- C6 (Refund eligibility and lazy void): refund reverts with
`RefundNotAvailable` unless the market is already cancelled or a set
deadline has passed by more than the 30-day grace period with the
market unresolved; when eligible with a nonzero unclaimed stake it
succeeds, paying exactly `amountYes + amountNo`; a successful refund
leaves the market cancelled (the expiry path sets the flag as a side
effect of the first refund), permanently foreclosing later
resolution. -/
theorem C6_refund_eligibility {st : ClawState} (now : Nat) (sender : Addr)
    (slug : String) :
    ((getMarket st slug).exists_ = true →
      (getMarket st slug).cancelled = false →
      ¬ (0 < (getMarket st slug).deadline ∧
        (getMarket st slug).deadline + REFUND_GRACE_PERIOD < now ∧
        (getMarket st slug).resolved = false) →
      refund now sender slug st = .error .RefundNotAvailable) ∧
    ((getMarket st slug).exists_ = true →
      ((getMarket st slug).cancelled = true ∨
        (0 < (getMarket st slug).deadline ∧
          (getMarket st slug).deadline + REFUND_GRACE_PERIOD < now ∧
          (getMarket st slug).resolved = false)) →
      ¬ ((getStakeRec st slug sender).amountYes +
        (getStakeRec st slug sender).amountNo) = 0 →
      (getStakeRec st slug sender).claimed = false →
      (getStakeRec st slug sender).amountYes +
        (getStakeRec st slug sender).amountNo ≤ bal st contractAddr →
      ∃ st', refund now sender slug st = .ok st') ∧
    (∀ st', refund now sender slug st = .ok st' →
      ((getMarket st slug).cancelled = true ∨
        (0 < (getMarket st slug).deadline ∧
          (getMarket st slug).deadline + REFUND_GRACE_PERIOD < now ∧
          (getMarket st slug).resolved = false)) ∧
      (getMarket st' slug).cancelled = true ∧
      st'.events.getLast? = some (.Refunded slug sender
        ((getStakeRec st slug sender).amountYes +
          (getStakeRec st slug sender).amountNo)) ∧
      (¬ sender = contractAddr → bal st' sender = bal st sender +
        ((getStakeRec st slug sender).amountYes +
          (getStakeRec st slug sender).amountNo)) ∧
      (∀ s2 oc now3, ∃ e, dispatch now3 (.opResolve s2 slug oc) st' =
        .error e)) := by
  refine ⟨?_, ?_, ?_⟩
  · intro hex hcanF hnel
    unfold refund
    simp only [keccak256_eq]
    rw [if_neg (show ¬ (getMarket st slug).exists_ = false by
      rw [hex]; simp)]
    rw [if_pos (show ¬ (getMarket st slug).cancelled ∧
      ¬ (0 < (getMarket st slug).deadline ∧
        (getMarket st slug).deadline + REFUND_GRACE_PERIOD < now ∧
        (getMarket st slug).resolved = false) from
      ⟨by rw [hcanF]; simp, hnel⟩)]
  · intro hex helig hz hcl hbal
    rcases hcanT : (getMarket st slug).cancelled with _ | _
    · have hexp : 0 < (getMarket st slug).deadline ∧
          (getMarket st slug).deadline + REFUND_GRACE_PERIOD < now ∧
          (getMarket st slug).resolved = false := by
        rcases helig with hc | hc
        · rw [hcanT] at hc; simp at hc
        · exact hc
      exact ⟨_, refund_on_expired now sender slug hex hcanT
        hexp.1 hexp.2.1 hexp.2.2 hz hcl hbal⟩
    · exact ⟨_, refund_on_cancelled now sender slug hex hcanT hz hcl hbal⟩
  · intro st' hok
    obtain ⟨hex, hz, hcl, hbal, hbr⟩ := refund_ok_elim hok
    rcases hbr with ⟨hcanc, hst⟩ | ⟨hcanc, hdl, hgr, hresF, hst⟩
    · subst hst
      have gcan : (getMarket (refundApply sender slug st) slug).cancelled =
          true := hcanc
      refine ⟨Or.inl hcanc, gcan, ?_, ?_, fun s2 oc now3 =>
        resolve_on_cancelled s2 slug oc gcan⟩
      · show (st.events ++ [Event.Refunded slug sender _]).getLast? = _
        rw [List.getLast?_concat]
      · intro hsc
        show amGet 0 (transferBal st.balances contractAddr sender _) sender = _
        rw [amGet_transferBal_to (fun hc => hsc hc.symm)]
        rfl
    · subst hst
      have gcan : (getMarket (refundApply sender slug
          (cancelOnRefund slug st)) slug).cancelled = true := by
        show (amGet {} (amSet st.markets slug
          { getMarket st slug with cancelled := true }) slug).cancelled = true
        rw [amGet_amSet_self]
      refine ⟨Or.inr ⟨hdl, hgr, hresF⟩, gcan, ?_, ?_, fun s2 oc now3 =>
        resolve_on_cancelled s2 slug oc gcan⟩
      · show ((st.events ++ [Event.MarketCancelled slug]) ++
          [Event.Refunded slug sender _]).getLast? = _
        rw [List.getLast?_concat]
        rfl
      · intro hsc
        show amGet 0 (transferBal st.balances contractAddr sender _) sender = _
        rw [amGet_transferBal_to (fun hc => hsc hc.symm)]
        rfl

/-- Witness for C6: deadline T = 1000; at T + 1 hour the refund reverts
with `RefundNotAvailable`; at T + 30 days + 1 s it succeeds, the market
becomes cancelled as a side effect, and the staker recovers the full
10 USDC. -/
theorem C6_refund_eligibility_witness :
    refund 4600 1 "m" (run (initState 9 [(1, 100000000)])
      [(10, .opStake 1 "m" true 10000000), (20, .opSetDeadline 9 "m" 1000)]) =
      .error .RefundNotAvailable ∧
    ∃ st', refund 2593001 1 "m" (run (initState 9 [(1, 100000000)])
      [(10, .opStake 1 "m" true 10000000), (20, .opSetDeadline 9 "m" 1000)]) =
        .ok st' ∧
      (getMarket st' "m").cancelled = true ∧ bal st' 1 = 100000000 := by
  refine ⟨(@C6_refund_eligibility (run (initState 9 [(1, 100000000)])
      [(10, .opStake 1 "m" true 10000000), (20, .opSetDeadline 9 "m" 1000)])
      4600 1 "m").1 (by decide) (by decide) (by decide), ?_⟩
  obtain ⟨st', hok⟩ := (@C6_refund_eligibility
      (run (initState 9 [(1, 100000000)])
        [(10, .opStake 1 "m" true 10000000), (20, .opSetDeadline 9 "m" 1000)])
      2593001 1 "m").2.1
    (by decide) (Or.inr (by decide)) (by decide) (by decide) (by decide)
  obtain ⟨-, hcan', -, hbal, -⟩ := (@C6_refund_eligibility
      (run (initState 9 [(1, 100000000)])
        [(10, .opStake 1 "m" true 10000000), (20, .opSetDeadline 9 "m" 1000)])
      2593001 1 "m").2.2 st' hok
  exact ⟨st', hok, hcan', by rw [hbal (by decide)]; decide⟩

/-! ## Full characterization of stake -/

theorem createIfAbsent_getMarket_self {st : ClawState} (inv : Inv st)
    (slug : String) :
    getMarket (createIfAbsent slug st) slug =
      { getMarket st slug with exists_ := true } := by
  by_cases hex : (getMarket st slug).exists_ = true
  · rw [createIfAbsent_of_exists hex]
    cases hgm : getMarket st slug with
    | mk a b c d e f g =>
      rw [hgm] at hex
      simp only [Market.exists_] at hex
      rw [hex]
  · rw [createIfAbsent_of_absent (by simpa using hex)]
    rw [inv.existsDefault slug (by simpa using hex)]
    simp [getMarket, amGet_amSet_self]

/-- In any state satisfying the invariant, `stake` is the sequence of
checks and effects of the source, expressed over the pre-state. -/
theorem stake_eq_of_Inv {st : ClawState} (inv : Inv st) (now : Nat)
    (sender : Addr) (slug : String) (isYes : Bool) (amount : Nat) :
    stake now sender slug isYes amount st =
      if slug = "" then .error .EmptySlug
      else if amount < MIN_STAKE then .error .StakeTooSmall
      else if (getMarket st slug).resolved = true then
        .error .MarketAlreadyResolved
      else if (getMarket st slug).cancelled = true then
        .error .MarketIsCancelled
      else if 0 < (getMarket st slug).deadline ∧
          (getMarket st slug).deadline < now then .error .MarketExpired
      else if bal st sender < amount then .error .TransferFailed
      else .ok (applyStake sender slug isYes amount
        { createIfAbsent slug st with
          balances := transferBal st.balances sender contractAddr amount }) := by
  unfold stake
  simp only [keccak256_eq]
  have hmf := createIfAbsent_getMarket_self inv slug
  by_cases h1 : slug = ""
  · rw [if_pos h1, if_pos h1]
  rw [if_neg h1, if_neg h1]
  by_cases h2 : amount < MIN_STAKE
  · rw [if_pos h2, if_pos h2]
  rw [if_neg h2, if_neg h2]
  rw [hmf]
  unfold lifecycleCheck
  simp only [Market.resolved, Market.cancelled, Market.deadline]
  by_cases h3 : (getMarket st slug).resolved = true
  · rw [if_pos h3, if_pos h3]
  rw [if_neg h3, if_neg h3]
  by_cases h4 : (getMarket st slug).cancelled = true
  · rw [if_pos h4, if_pos h4]
  rw [if_neg h4, if_neg h4]
  by_cases h5 : 0 < (getMarket st slug).deadline ∧
      (getMarket st slug).deadline < now
  · rw [if_pos h5, if_pos h5]
  rw [if_neg h5, if_neg h5]
  rw [show bal (createIfAbsent slug st) sender = bal st sender by
    rw [bal, createIfAbsent_balances]; rfl]
  by_cases h6 : bal st sender < amount
  · rw [if_pos h6, if_pos h6]
  rw [if_neg h6, if_neg h6]
  rw [show transferBal (createIfAbsent slug st).balances sender contractAddr
    amount = transferBal st.balances sender contractAddr amount by
    rw [createIfAbsent_balances]]

/-- C7 (Stake preconditions and errors): in any reachable state, a
`stake` call succeeds if and only if the slug is non-empty, the amount
is at least `MIN_STAKE`, the market is neither resolved nor cancelled,
any set deadline has not passed, and the custody transfer-in succeeds;
each failing check reverts with its specific error, in source order;
and a success pulls exactly `amount` into custody and credits it to the
chosen side of the market and of the caller's stake record,
auto-creating the market. -/
theorem C7_stake_preconditions {st : ClawState} (inv : Inv st) (now : Nat)
    (sender : Addr) (slug : String) (isYes : Bool) (amount : Nat) :
    ((∃ st', stake now sender slug isYes amount st = .ok st') ↔
      (¬ slug = "" ∧ MIN_STAKE ≤ amount ∧
        (getMarket st slug).resolved = false ∧
        (getMarket st slug).cancelled = false ∧
        (0 < (getMarket st slug).deadline →
          now ≤ (getMarket st slug).deadline) ∧
        amount ≤ bal st sender)) ∧
    (slug = "" →
      stake now sender slug isYes amount st = .error .EmptySlug) ∧
    (¬ slug = "" → amount < MIN_STAKE →
      stake now sender slug isYes amount st = .error .StakeTooSmall) ∧
    (¬ slug = "" → MIN_STAKE ≤ amount →
      (getMarket st slug).resolved = true →
      stake now sender slug isYes amount st = .error .MarketAlreadyResolved) ∧
    (¬ slug = "" → MIN_STAKE ≤ amount →
      (getMarket st slug).resolved = false →
      (getMarket st slug).cancelled = true →
      stake now sender slug isYes amount st = .error .MarketIsCancelled) ∧
    (¬ slug = "" → MIN_STAKE ≤ amount →
      (getMarket st slug).resolved = false →
      (getMarket st slug).cancelled = false →
      0 < (getMarket st slug).deadline →
      (getMarket st slug).deadline < now →
      stake now sender slug isYes amount st = .error .MarketExpired) ∧
    (¬ slug = "" → MIN_STAKE ≤ amount →
      (getMarket st slug).resolved = false →
      (getMarket st slug).cancelled = false →
      ¬ (0 < (getMarket st slug).deadline ∧
        (getMarket st slug).deadline < now) →
      bal st sender < amount →
      stake now sender slug isYes amount st = .error .TransferFailed) ∧
    (∀ st', stake now sender slug isYes amount st = .ok st' →
      (getMarket st' slug).exists_ = true ∧
      (getMarket st' slug).totalYes =
        (getMarket st slug).totalYes + (if isYes then amount else 0) ∧
      (getMarket st' slug).totalNo =
        (getMarket st slug).totalNo + (if isYes then 0 else amount) ∧
      (getStakeRec st' slug sender).amountYes =
        (getStakeRec st slug sender).amountYes +
          (if isYes then amount else 0) ∧
      (getStakeRec st' slug sender).amountNo =
        (getStakeRec st slug sender).amountNo +
          (if isYes then 0 else amount) ∧
      (¬ sender = contractAddr →
        bal st' sender = bal st sender - amount ∧
        bal st' contractAddr = bal st contractAddr + amount)) := by
  have heq := stake_eq_of_Inv inv now sender slug isYes amount
  have hmf := createIfAbsent_getMarket_self inv slug
  refine ⟨⟨?_, ?_⟩, ?_, ?_, ?_, ?_, ?_, ?_, ?_⟩
  · rintro ⟨st', h⟩
    rw [heq] at h
    split_ifs at h with h1 h2 h3 h4 h5 h6
    all_goals try exact Except.noConfusion h
    refine ⟨h1, by omega, by simpa using h3, by simpa using h4,
      fun hdl => by omega, by omega⟩
  · rintro ⟨h1, h2, h3, h4, h5, h6⟩
    rw [heq, if_neg h1, if_neg (by omega), if_neg (by rw [h3]; simp),
      if_neg (by rw [h4]; simp), if_neg (by omega), if_neg (by omega)]
    exact ⟨_, rfl⟩
  · intro h1
    rw [heq, if_pos h1]
  · intro h1 h2
    rw [heq, if_neg h1, if_pos h2]
  · intro h1 h2 h3
    rw [heq, if_neg h1, if_neg (by omega), if_pos h3]
  · intro h1 h2 h3 h4
    rw [heq, if_neg h1, if_neg (by omega), if_neg (by rw [h3]; simp),
      if_pos h4]
  · intro h1 h2 h3 h4 h5 h6
    rw [heq, if_neg h1, if_neg (by omega), if_neg (by rw [h3]; simp),
      if_neg (by rw [h4]; simp), if_pos ⟨h5, h6⟩]
  · intro h1 h2 h3 h4 h5 h6
    rw [heq, if_neg h1, if_neg (by omega), if_neg (by rw [h3]; simp),
      if_neg (by rw [h4]; simp), if_neg h5, if_pos h6]
  · intro st' h
    rw [heq] at h
    split_ifs at h with h1 h2 h3 h4 h5 h6
    all_goals try exact Except.noConfusion h
    · have hst := (Except.ok.inj h).symm
      subst hst
      rw [applyStake_eq]
      have gself : getMarket (applyStake sender slug isYes amount
          { createIfAbsent slug st with
            balances := transferBal st.balances sender contractAddr amount })
          slug = { getMarket (createIfAbsent slug st) slug with
            totalYes := (getMarket (createIfAbsent slug st) slug).totalYes +
              (if isYes then amount else 0)
            totalNo := (getMarket (createIfAbsent slug st) slug).totalNo +
              (if isYes then 0 else amount) } := by
        rw [applyStake_eq]
        show amGet {} (amSet (createIfAbsent slug st).markets slug _) slug = _
        rw [amGet_amSet_self]
        rfl
      rw [applyStake_eq] at gself
      rw [gself, hmf]
      have sself : getStakeRec (applyStake sender slug isYes amount
          { createIfAbsent slug st with
            balances := transferBal st.balances sender contractAddr amount })
          slug sender = { getStakeRec st slug sender with
            amountYes := (getStakeRec st slug sender).amountYes +
              (if isYes then amount else 0)
            amountNo := (getStakeRec st slug sender).amountNo +
              (if isYes then 0 else amount) } := by
        rw [applyStake_eq]
        show amGet {} (amSet (createIfAbsent slug st).stakes (slug, sender) _)
          (slug, sender) = _
        rw [amGet_amSet_self]
        have hsr : getStakeRec { createIfAbsent slug st with
            balances := transferBal st.balances sender contractAddr amount }
            slug sender = getStakeRec st slug sender := by
          show amGet {} (createIfAbsent slug st).stakes (slug, sender) =
            amGet {} st.stakes (slug, sender)
          rw [createIfAbsent_stakes]
        rw [hsr]
      rw [applyStake_eq] at sself
      rw [sself]
      refine ⟨rfl, rfl, rfl, rfl, rfl, fun hsc => ⟨?_, ?_⟩⟩
      · show amGet 0 (transferBal st.balances sender contractAddr amount)
          sender = _
        rw [amGet_transferBal_from hsc]
        rfl
      · show amGet 0 (transferBal st.balances sender contractAddr amount)
          contractAddr = _
        rw [amGet_transferBal_to hsc]
        rfl

/-- Witness for C7: with a deadline of 1000, a stake at time 1000
succeeds and the identical stake at time 1001 reverts with the expired
error. -/
theorem C7_stake_preconditions_witness :
    (∃ st', stake 1000 1 "m" true 10000000
      (run (initState 9 [(1, 100000000)])
        [(10, .opStake 1 "m" true 10000000),
          (20, .opSetDeadline 9 "m" 1000)]) = .ok st') ∧
    stake 1001 1 "m" true 10000000
      (run (initState 9 [(1, 100000000)])
        [(10, .opStake 1 "m" true 10000000),
          (20, .opSetDeadline 9 "m" 1000)]) = .error .MarketExpired := by
  have inv := Inv_reachable ⟨9, [(1, 100000000)],
    [(10, .opStake 1 "m" true 10000000), (20, .opSetDeadline 9 "m" 1000)],
    rfl⟩
  refine ⟨(C7_stake_preconditions inv 1000 1 "m" true 10000000).1.mpr
    ⟨by decide, by decide, by decide, by decide, by decide, by decide⟩, ?_⟩
  exact (C7_stake_preconditions inv 1001 1 "m" true 10000000).2.2.2.2.2.1
    (by decide) (by decide) (by decide) (by decide) (by decide) (by decide)

/-! ## Batch-stake lemmas -/

theorem sumChecked_ok : ∀ {amounts : List Nat} {total : Nat},
    sumChecked amounts = .ok total → total = amounts.sum
  | [], total, h => by
    simp only [sumChecked] at h
    rw [List.sum_nil]
    exact (Except.ok.inj h).symm
  | a :: t, total, h => by
    simp only [sumChecked] at h
    by_cases h1 : a < MIN_STAKE
    · rw [if_pos h1] at h; exact Except.noConfusion h
    · rw [if_neg h1] at h
      rcases hs : sumChecked t with e | s
      · rw [hs] at h; exact Except.noConfusion h
      · rw [hs] at h
        have := sumChecked_ok hs
        rw [← Except.ok.inj h, this]
        simp

theorem sumChecked_small : ∀ {amounts : List Nat},
    (∃ x ∈ amounts, x < MIN_STAKE) →
    sumChecked amounts = .error .StakeTooSmall
  | [], h => by simp at h
  | a :: t, h => by
    simp only [sumChecked]
    by_cases h1 : a < MIN_STAKE
    · rw [if_pos h1]
    · rw [if_neg h1]
      have ht : ∃ x ∈ t, x < MIN_STAKE := by
        rcases h with ⟨x, hx, hlt⟩
        rcases List.mem_cons.mp hx with rfl | hx2
        · exact absurd hlt h1
        · exact ⟨x, hx2, hlt⟩
      rw [sumChecked_small ht]

theorem recordStakes_balances {now : Nat} {sender : Addr} :
    ∀ {entries : List (String × Bool × Nat)} {st st' : ClawState},
    recordStakes now sender entries st = .ok st' → st'.balances = st.balances
  | [], st, st', h => by
    simp only [recordStakes] at h
    rw [← Except.ok.inj h]
  | (slug, isYes, amount) :: rest, st, st', h => by
    simp only [recordStakes] at h
    rcases hr : recordStake now sender slug isYes amount st with e | st1
    · rw [hr] at h; exact absurd h (by simp)
    · rw [hr] at h
      have h2 := recordStakes_balances h
      obtain ⟨-, -, -, -, hst⟩ := recordStake_ok_elim hr
      subst hst
      rw [h2]
      show (createIfAbsent slug st).balances = st.balances
      exact createIfAbsent_balances slug st

/-- C5 (Batch atomicity, validate-all-then-transfer-once): a batch with
mismatched array lengths reverts with `ArrayLengthMismatch`; a batch
containing any sub-minimum amount reverts with `StakeTooSmall`; any
reverted batch leaves the state (custody balances included) exactly as
it was, with zero state change for every entry including the valid
ones; and a successful batch performs exactly one aggregate custody
pull equal to the sum of all entry amounts and applies each entry's
bookkeeping. -/
theorem C5_batch_atomicity {st : ClawState} (now : Nat) (sender : Addr)
    (slugs : List String) (sides : List Bool) (amounts : List Nat) :
    (¬ (slugs.length = sides.length ∧ sides.length = amounts.length) →
      batchStake now sender slugs sides amounts st =
        .error .ArrayLengthMismatch) ∧
    ((slugs.length = sides.length ∧ sides.length = amounts.length) →
      (∃ x ∈ amounts, x < MIN_STAKE) →
      batchStake now sender slugs sides amounts st = .error .StakeTooSmall) ∧
    (∀ e, batchStake now sender slugs sides amounts st = .error e →
      execOp now (.opBatchStake sender slugs sides amounts) st = st) ∧
    (∀ st', batchStake now sender slugs sides amounts st = .ok st' →
      sumChecked amounts = .ok amounts.sum ∧
      recordStakes now sender (slugs.zip (sides.zip amounts))
        { st with balances := (transferBal st.balances sender contractAddr
          amounts.sum) } = .ok st' ∧
      (¬ sender = contractAddr →
        bal st' sender + amounts.sum = bal st sender ∧
        bal st' contractAddr = bal st contractAddr + amounts.sum)) := by
  refine ⟨?_, ?_, ?_, ?_⟩
  · intro hlen
    unfold batchStake
    rw [if_pos hlen]
  · intro hlen hsmall
    unfold batchStake
    rw [if_neg (not_not_intro hlen), sumChecked_small hsmall]
  · intro e he
    exact execOp_of_error (by simpa [dispatch] using he)
  · intro st' h
    obtain ⟨h1, h2, total, hsc, hbal, hrec⟩ := batchStake_ok_elim h
    have htot := sumChecked_ok hsc
    subst htot
    refine ⟨hsc, hrec, fun hsc2 => ?_⟩
    have hbals := recordStakes_balances hrec
    have hfrom : bal st' sender =
        bal st sender - amounts.sum := by
      rw [bal, hbals]
      show amGet 0 (transferBal st.balances sender contractAddr amounts.sum)
        sender = _
      rw [amGet_transferBal_from hsc2]
      rfl
    have hto : bal st' contractAddr =
        bal st contractAddr + amounts.sum := by
      rw [bal, hbals]
      show amGet 0 (transferBal st.balances sender contractAddr amounts.sum)
        contractAddr = _
      rw [amGet_transferBal_to hsc2]
      rfl
    exact ⟨by omega, hto⟩

/-- Witness for C5: a two-entry batch whose second amount (5) is below
`MIN_STAKE` reverts as a whole with `StakeTooSmall` and leaves the
state unchanged, although the first entry (10 USDC) is valid; the same
batch with both entries valid succeeds with one aggregate pull of
20 USDC. -/
theorem C5_batch_atomicity_witness :
    batchStake 10 1 ["a", "b"] [true, true] [10000000, 5]
      (initState 9 [(1, 100000000)]) = .error .StakeTooSmall ∧
    execOp 10 (.opBatchStake 1 ["a", "b"] [true, true] [10000000, 5])
      (initState 9 [(1, 100000000)]) = initState 9 [(1, 100000000)] ∧
    (∀ st', batchStake 10 1 ["a", "b"] [true, true] [10000000, 10000000]
        (initState 9 [(1, 100000000)]) = .ok st' →
      bal st' 1 + 20000000 = 100000000 ∧ bal st' contractAddr = 20000000) := by
  have thm1 := @C5_batch_atomicity (initState 9 [(1, 100000000)])
    10 1 ["a", "b"] [true, true] [10000000, 5]
  have thm2 := @C5_batch_atomicity (initState 9 [(1, 100000000)])
    10 1 ["a", "b"] [true, true] [10000000, 10000000]
  have herr := thm1.2.1 (by decide) ⟨5, by decide, by decide⟩
  refine ⟨herr, thm1.2.2.1 _ herr, fun st' hok => ?_⟩
  have heff := (thm2.2.2.2 st' hok).2.2 (by decide)
  constructor
  · have hd := heff.1
    simp only [List.sum_cons, List.sum_nil] at hd
    have h2 : bal (initState 9 [(1, 100000000)]) 1 = 100000000 := by decide
    omega
  · have hd := heff.2
    simp only [List.sum_cons, List.sum_nil] at hd
    have h2 : bal (initState 9 [(1, 100000000)]) contractAddr = 0 := by decide
    omega

/-- C9 (Atomicity of rejection): any operation that reverts, with any
error, leaves the whole state — markets, stakes, enumeration list,
reverse lookup, balances and events — exactly as it was.  In
particular, a refund attempt on an expired unresolved market by a
caller with zero stake or an already-set flag reverts with
`NothingToRefund`, and the market's `cancelled` flag remains false even
though the code writes the lazy-void flag before that check (the
revert rolls it back). -/
theorem C9_atomicity :
    (∀ (now : Nat) (op : Op) (st : ClawState) (e : Err),
      dispatch now op st = .error e → execOp now op st = st) ∧
    (∀ (st : ClawState) (now : Nat) (sender : Addr) (slug : String),
      (getMarket st slug).exists_ = true →
      0 < (getMarket st slug).deadline →
      (getMarket st slug).deadline + REFUND_GRACE_PERIOD < now →
      (getMarket st slug).resolved = false →
      (getMarket st slug).cancelled = false →
      ((getStakeRec st slug sender).amountYes +
        (getStakeRec st slug sender).amountNo = 0 ∨
        (getStakeRec st slug sender).claimed = true) →
      refund now sender slug st = .error .NothingToRefund ∧
      (getMarket (execOp now (.opRefund sender slug) st) slug).cancelled =
        false) := by
  constructor
  · intro now op st e h
    exact execOp_of_error h
  · intro st now sender slug hex hdl hgr hresF hcanF hz
    have herr : refund now sender slug st = .error .NothingToRefund := by
      unfold refund
      simp only [keccak256_eq]
      rw [if_neg (show ¬ (getMarket st slug).exists_ = false by
        rw [hex]; simp)]
      rw [if_neg (show ¬ (¬ (getMarket st slug).cancelled ∧
        ¬ (0 < (getMarket st slug).deadline ∧
          (getMarket st slug).deadline + REFUND_GRACE_PERIOD < now ∧
          (getMarket st slug).resolved = false)) by
        intro hcon
        exact hcon.2 ⟨hdl, hgr, hresF⟩)]
      rw [if_pos (show (0 < (getMarket st slug).deadline ∧
        (getMarket st slug).deadline + REFUND_GRACE_PERIOD < now ∧
        (getMarket st slug).resolved = false) ∧
        (getMarket st slug).cancelled = false from ⟨⟨hdl, hgr, hresF⟩, hcanF⟩)]
      simp only [getStakeRec_mk, bal_mk]
      rw [if_pos (show (amGet ({} : Stake) st.stakes (slug, sender)).amountYes +
        (amGet ({} : Stake) st.stakes (slug, sender)).amountNo = 0 ∨
        (amGet ({} : Stake) st.stakes (slug, sender)).claimed = true from hz)]
    refine ⟨herr, ?_⟩
    rw [execOp_of_error (show dispatch now (.opRefund sender slug) st =
      .error .NothingToRefund from herr)]
    exact hcanF

/-- Witness for C9: an expired unresolved market; participant 2 has no
stake, their refund reverts with `NothingToRefund`, and the market's
`cancelled` flag — written and rolled back inside the reverted call —
is still false; the state is unchanged. -/
theorem C9_atomicity_witness :
    refund 2593001 2 "m" (run (initState 9 [(1, 100000000)])
      [(10, .opStake 1 "m" true 10000000), (20, .opSetDeadline 9 "m" 1000)]) =
      .error .NothingToRefund ∧
    (getMarket (execOp 2593001 (.opRefund 2 "m")
      (run (initState 9 [(1, 100000000)])
        [(10, .opStake 1 "m" true 10000000),
          (20, .opSetDeadline 9 "m" 1000)])) "m").cancelled = false ∧
    execOp 2593001 (.opRefund 2 "m") (run (initState 9 [(1, 100000000)])
      [(10, .opStake 1 "m" true 10000000), (20, .opSetDeadline 9 "m" 1000)]) =
      run (initState 9 [(1, 100000000)])
        [(10, .opStake 1 "m" true 10000000), (20, .opSetDeadline 9 "m" 1000)] := by
  have h2 := C9_atomicity.2 (run (initState 9 [(1, 100000000)])
      [(10, .opStake 1 "m" true 10000000), (20, .opSetDeadline 9 "m" 1000)])
    2593001 2 "m" (by decide) (by decide) (by decide) (by decide) (by decide)
    (Or.inl (by decide))
  exact ⟨h2.1, h2.2, C9_atomicity.1 2593001 _ _ _ h2.1⟩

/-! ## Registry coherence -/

/-- The registry invariant: the enumeration list has no duplicates, a
market exists exactly when its key is enumerated, and every enumerated
key round-trips through the reverse slug lookup. -/
structure RegInv (st : ClawState) : Prop where
  nodupKeys : st.marketKeys.Nodup
  existsIff : ∀ k, (getMarket st k).exists_ = true ↔ k ∈ st.marketKeys
  slugRound : ∀ k ∈ st.marketKeys, keccak256 (amGet "" st.slugOf k) = k

theorem RegInv_of_fields {st st' : ClawState} (ri : RegInv st)
    (hmk : st'.marketKeys = st.marketKeys) (hso : st'.slugOf = st.slugOf)
    (hm : ∀ k, (getMarket st' k).exists_ = (getMarket st k).exists_) :
    RegInv st' :=
  ⟨hmk ▸ ri.nodupKeys,
    fun k => by rw [hm k, hmk]; exact ri.existsIff k,
    fun k hk => by rw [hso]; exact ri.slugRound k (hmk ▸ hk)⟩

theorem RegInv_createIfAbsent {st : ClawState} (ri : RegInv st)
    (slug : String) : RegInv (createIfAbsent slug st) := by
  by_cases hex : (getMarket st slug).exists_ = true
  · rw [createIfAbsent_of_exists hex]; exact ri
  · have hex0 : (getMarket st slug).exists_ = false := by simpa using hex
    have hnm : slug ∉ st.marketKeys := fun hmem => by
      rw [(ri.existsIff slug).mpr hmem] at hex0
      exact Bool.noConfusion hex0
    rw [createIfAbsent_of_absent hex0]
    refine ⟨?_, ?_, ?_⟩
    · show (st.marketKeys ++ [slug]).Nodup
      rw [List.nodup_append]
      exact ⟨ri.nodupKeys, List.nodup_singleton _,
        fun a ha hb => hnm (List.mem_singleton.mp hb ▸ ha)⟩
    · intro k
      by_cases hks : slug = k
      · subst hks
        show (amGet {} (amSet st.markets slug
          ({ exists_ := true } : Market)) slug).exists_ = true ↔ _
        rw [amGet_amSet_self]
        simp
      · show (amGet {} (amSet st.markets slug
          ({ exists_ := true } : Market)) k).exists_ = true ↔
          k ∈ st.marketKeys ++ [slug]
        rw [amGet_amSet_ne _ _ _ hks]
        rw [List.mem_append, List.mem_singleton]
        constructor
        · intro hk
          exact Or.inl ((ri.existsIff k).mp hk)
        · rintro (hk | hk)
          · exact (ri.existsIff k).mpr hk
          · exact absurd hk.symm hks
    · intro k hk
      rcases List.mem_append.mp hk with hk1 | hk1
      · have hks : slug ≠ k := fun hc => hnm (hc ▸ hk1)
        show keccak256 (amGet "" (amSet st.slugOf slug slug) k) = k
        rw [amGet_amSet_ne _ _ _ hks]
        exact ri.slugRound k hk1
      · have hks : k = slug := List.mem_singleton.mp hk1
        subst hks
        show keccak256 (amGet "" (amSet st.slugOf k k) k) = k
        rw [amGet_amSet_self]
        rfl

theorem RegInv_applyStake {st : ClawState} (ri : RegInv st) (sender : Addr)
    (slug : String) (isYes : Bool) (amount : Nat) :
    RegInv (applyStake sender slug isYes amount st) := by
  rw [applyStake_eq]
  refine RegInv_of_fields ri rfl rfl ?_
  intro k
  by_cases hks : slug = k
  · subst hks
    show (amGet {} (amSet st.markets slug _) slug).exists_ = _
    rw [amGet_amSet_self]
  · show (amGet {} (amSet st.markets slug _) k).exists_ = _
    rw [amGet_amSet_ne _ _ _ hks]
    rfl

theorem RegInv_setMarket {st : ClawState} (ri : RegInv st) (slug : String)
    (m' : Market) (hEx : m'.exists_ = (getMarket st slug).exists_)
    (ms : List (String × Market)) (hms : ms = amSet st.markets slug m')
    {st' : ClawState} (hmk : st'.marketKeys = st.marketKeys)
    (hso : st'.slugOf = st.slugOf) (hm : st'.markets = ms) : RegInv st' := by
  refine RegInv_of_fields ri hmk hso ?_
  intro k
  rw [show getMarket st' k = amGet {} (amSet st.markets slug m') k by
    rw [getMarket, hm, hms]]
  by_cases hks : slug = k
  · subst hks
    rw [amGet_amSet_self, hEx]
  · rw [amGet_amSet_ne _ _ _ hks]
    rfl

theorem RegInv_recordStakes {now : Nat} {sender : Addr} :
    ∀ {entries : List (String × Bool × Nat)} {st st' : ClawState},
    RegInv st → recordStakes now sender entries st = .ok st' → RegInv st'
  | [], st, st', ri, h => by
    simp only [recordStakes] at h
    exact (Except.ok.inj h) ▸ ri
  | (slug, isYes, amount) :: rest, st, st', ri, h => by
    simp only [recordStakes] at h
    rcases hr : recordStake now sender slug isYes amount st with e | st1
    · rw [hr] at h; exact absurd h (by simp)
    · rw [hr] at h
      obtain ⟨-, -, -, -, hst⟩ := recordStake_ok_elim hr
      subst hst
      exact RegInv_recordStakes
        (RegInv_applyStake (RegInv_createIfAbsent ri slug) sender slug
          isYes amount) h

/-- Every call preserves the registry invariant. -/
theorem RegInv_execOp {st : ClawState} (ri : RegInv st) (now : Nat)
    (op : Op) : RegInv (execOp now op st) := by
  rcases hd : dispatch now op st with e | st'
  · rw [execOp_of_error hd]; exact ri
  · rw [execOp_of_ok hd]
    cases op with
    | opStake sender slug isYes amount =>
      obtain ⟨-, -, -, -, -, -, hst⟩ := stake_ok_elim hd
      subst hst
      exact @RegInv_applyStake
        { createIfAbsent slug st with
          balances := transferBal st.balances sender contractAddr amount }
        (RegInv_of_fields (RegInv_createIfAbsent ri slug) rfl rfl
          (fun k => rfl)) sender slug isYes amount
    | opBatchStake sender slugs sides amounts =>
      obtain ⟨-, -, total, -, -, hrec⟩ := batchStake_ok_elim hd
      exact RegInv_recordStakes
        (@RegInv_of_fields st
          { st with
            balances := transferBal st.balances sender contractAddr total }
          ri rfl rfl (fun k => rfl)) hrec
    | opResolve sender slug oc =>
      obtain ⟨-, -, -, -, hbr⟩ := resolve_ok_elim hd
      rcases hbr with ⟨-, hst⟩ | ⟨-, hst⟩ <;> subst hst
      · exact RegInv_setMarket ri slug
          { getMarket st slug with resolved := true, outcomeYes := oc }
          rfl _ rfl rfl rfl rfl
      · exact RegInv_setMarket ri slug
          { getMarket st slug with
            resolved := true, outcomeYes := oc, cancelled := true }
          rfl _ rfl rfl rfl rfl
    | opClaim sender slug =>
      obtain ⟨-, -, -, -, -, -, hst⟩ := claim_ok_elim hd
      subst hst
      exact RegInv_of_fields ri rfl rfl (fun k => rfl)
    | opRefund sender slug =>
      obtain ⟨-, -, -, -, hbr⟩ := refund_ok_elim hd
      rcases hbr with ⟨-, hst⟩ | ⟨-, -, -, -, hst⟩ <;> subst hst
      · exact RegInv_of_fields ri rfl rfl (fun k => rfl)
      · refine RegInv_of_fields (@RegInv_setMarket st ri slug
          { getMarket st slug with cancelled := true } rfl _ rfl
          (cancelOnRefund slug st) rfl rfl rfl) rfl rfl (fun k => rfl)
    | opSetDeadline sender slug d =>
      obtain ⟨-, -, -, -, hst⟩ := setDeadline_ok_elim hd
      subst hst
      exact RegInv_setMarket ri slug
        { getMarket st slug with deadline := d } rfl _ rfl rfl rfl rfl
    | opCancelMarket sender slug =>
      obtain ⟨-, -, -, -, hst⟩ := cancelMarket_ok_elim hd
      subst hst
      exact RegInv_setMarket ri slug
        { getMarket st slug with cancelled := true } rfl _ rfl rfl rfl rfl
    | opEmergencyWithdraw sender amount =>
      obtain ⟨-, -, hst⟩ := emergencyWithdraw_ok_elim hd
      subst hst
      exact RegInv_of_fields ri rfl rfl (fun k => rfl)

theorem RegInv_init (owner : Addr) (bal0 : List (Addr × Nat)) :
    RegInv (initState owner bal0) := by
  refine ⟨List.nodup_nil, ?_, ?_⟩
  · intro k
    simp [initState, getMarket, amGet]
  · intro k hk
    simp [initState] at hk

theorem RegInv_reachable {st : ClawState} (h : Reachable st) : RegInv st := by
  obtain ⟨owner, bal0, tr, rfl⟩ := h
  have : ∀ (tr : List (Nat × Op)) (st0 : ClawState), RegInv st0 →
      RegInv (run st0 tr) := by
    intro tr
    induction tr with
    | nil => intro st0 h0; exact h0
    | cons x t ih =>
      obtain ⟨now, op⟩ := x
      intro st0 h0
      exact ih _ (RegInv_execOp h0 now op)
  exact this tr _ (RegInv_init owner bal0)

/-- C10 (Registry coherence): in every reachable state the enumeration
list `marketKeys` has pairwise-distinct entries, a market record exists
exactly when its key is enumerated, every enumerated key round-trips
through the reverse slug lookup (`keccak256 (slugOf k) = k`),
`marketCount` is the length of the enumeration list, and
`getMarketByIndex` returns, for every valid index, a created market's
key with its original slug. -/
theorem C10_registry_coherence {st : ClawState} (h : Reachable st) :
    st.marketKeys.Nodup ∧
    (∀ k, (getMarket st k).exists_ = true ↔ k ∈ st.marketKeys) ∧
    (∀ k ∈ st.marketKeys, keccak256 (amGet "" st.slugOf k) = k) ∧
    marketCount st = st.marketKeys.length ∧
    (∀ i k s, getMarketByIndex st i = some (k, s) →
      keccak256 s = k ∧ (getMarket st k).exists_ = true) := by
  have ri := RegInv_reachable h
  refine ⟨ri.nodupKeys, ri.existsIff, ri.slugRound, rfl, ?_⟩
  intro i k s hks
  unfold getMarketByIndex at hks
  rcases hidx : st.marketKeys[i]? with _ | key
  · rw [hidx] at hks; exact absurd hks (by simp)
  · rw [hidx] at hks
    have hmem : key ∈ st.marketKeys := List.getElem?_mem hidx
    have hinj := Option.some.inj hks
    have hk : key = k := congrArg Prod.fst hinj
    have hs : amGet "" st.slugOf key = s := congrArg Prod.snd hinj
    subst hk
    rw [← hs]
    exact ⟨ri.slugRound key hmem, (ri.existsIff key).mpr hmem⟩

/-- Witness for C10: after stakes creating markets "a" and "b", the
registry is coherent and index 0 enumerates "a" with its slug. -/
theorem C10_registry_coherence_witness :
    (run (initState 9 [(1, 100000000)])
      [(10, .opStake 1 "a" true 1000000), (10, .opStake 1 "b" false 2000000)]
      ).marketKeys.Nodup ∧
    ((getMarket (run (initState 9 [(1, 100000000)])
      [(10, .opStake 1 "a" true 1000000), (10, .opStake 1 "b" false 2000000)])
      "a").exists_ = true ↔ "a" ∈ (run (initState 9 [(1, 100000000)])
      [(10, .opStake 1 "a" true 1000000), (10, .opStake 1 "b" false 2000000)]
      ).marketKeys) ∧
    (keccak256 "a" = "a" ∧ (getMarket (run (initState 9 [(1, 100000000)])
      [(10, .opStake 1 "a" true 1000000), (10, .opStake 1 "b" false 2000000)])
      "a").exists_ = true) := by
  have thm := C10_registry_coherence
    ⟨9, [(1, 100000000)],
      [(10, .opStake 1 "a" true 1000000), (10, .opStake 1 "b" false 2000000)],
      rfl⟩
  exact ⟨thm.1, thm.2.1 "a", thm.2.2.2.2 0 "a" "a" (by decide)⟩

end ClawStake
